import Mathlib

/-!
# Verification of the sbstck-dl fetch / extract / asset-rewrite core

This file gives a shallow embedding, in Lean 4, of the core algorithms of the
`sbstck-dl` repository (a Substack post downloader written in Go), and proves
or refutes a fixed list of specification claims about them.

Modelling conventions:

* Go strings are modelled as `List Char` (ASCII payloads in practice).
* Go `map[string]string` values are modelled as association lists
  (`SMap`); the maps used by the code are only read with `m[k]`,
  written with `m[k] = v` and deleted with `delete(m, k)`, never iterated,
  so an association list with set/get/erase is a faithful deterministic model.
* The HTTP layer is modelled by explicit response values / attempt-outcome
  scripts; contexts are modelled as never cancelled (cancellation is an
  orthogonal, temporal concern).
* Machine integers are modelled as `Int`/`Nat` (header values and widths are
  tiny; int64 overflow is unreachable in the modelled paths).
* Durations are rationals counted in nanoseconds.
-/

set_option autoImplicit false

namespace Sbstck

/-! ## Go string primitives -/

/-- Whitespace class of Go's RE2 `\s`: `[\t\n\f\r ]`. -/
def isRegexSpace (c : Char) : Bool :=
  c = ' ' || c = '\t' || c = '\n' || c = '\x0c' || c = '\r'

/-- ASCII fragment of Go's `unicode.IsSpace` (used by `strings.Fields` and
`strings.TrimSpace`): `[\t\n\v\f\r ]`.  Non-ASCII Unicode spaces do not occur
in the modelled inputs. -/
def isUniSpace (c : Char) : Bool :=
  c = ' ' || c = '\t' || c = '\n' || c = '\x0b' || c = '\x0c' || c = '\r'

def isDigitChar (c : Char) : Bool :=
  '0' ≤ c && c ≤ '9'

/-- Go `strings.TrimSpace` (ASCII). -/
def trimSpace (s : List Char) : List Char :=
  ((s.dropWhile isUniSpace).reverse.dropWhile isUniSpace).reverse

/-- Helper for `goFields`: `acc` holds the current word, reversed. -/
def goFieldsAux : List Char → List Char → List (List Char)
  | [], acc => if acc = [] then [] else [acc.reverse]
  | c :: cs, acc =>
    if isUniSpace c then
      if acc = [] then goFieldsAux cs [] else acc.reverse :: goFieldsAux cs []
    else goFieldsAux cs (c :: acc)

/-- Go `strings.Fields` (ASCII): split around maximal whitespace runs. -/
def goFields (s : List Char) : List (List Char) :=
  goFieldsAux s []

/-- Go `strings.Split(s, sep)` for a one-character separator. -/
def splitOnChar (sep : Char) : List Char → List (List Char)
  | [] => [[]]
  | c :: cs =>
    let r := splitOnChar sep cs
    if c = sep then [] :: r
    else
      match r with
      | [] => [[c]]
      | h :: t => (c :: h) :: t

/-- Go `strings.HasPrefix`. -/
def startsWithL (pre s : List Char) : Bool :=
  pre.isPrefixOf s

/-- Go `strings.HasSuffix`. -/
def endsWithL (suf s : List Char) : Bool :=
  suf.isSuffixOf s

/-- Go `strings.TrimSuffix`: drop `suf` once if it is a suffix. -/
def trimSuffixL (s suf : List Char) : List Char :=
  if endsWithL suf s then s.take (s.length - suf.length) else s

/-- Go `strings.Index`: byte index of the first occurrence of `pat` in `s`,
`-1` (here `none`) if absent. -/
def indexOfFrom (s pat : List Char) : Option Nat :=
  if startsWithL pat s then some 0
  else
    match s with
    | [] => none
    | _ :: cs => (indexOfFrom cs pat).map (· + 1)

/-- Go `strings.LastIndex`. -/
def lastIndexOf (s pat : List Char) : Option Nat :=
  match s with
  | [] => if pat = [] then some 0 else none
  | _ :: cs =>
    match lastIndexOf cs pat with
    | some i => some (i + 1)
    | none => if startsWithL pat s then some 0 else none

/-- Go `strings.Contains`. -/
def containsSub (s pat : List Char) : Bool :=
  (indexOfFrom s pat).isSome

/-- Go `strconv.Atoi` (without the int64 overflow edge, unreachable for the
inputs the code feeds it): optional sign, then one or more digits, nothing
else. -/
def atoi (s : List Char) : Option Int :=
  match s with
  | [] => none
  | '+' :: ds => atoiDigits ds
  | '-' :: ds => (atoiDigits ds).map (fun n => -n)
  | ds => atoiDigits ds
where
  atoiDigits (ds : List Char) : Option Int :=
    if ds = [] then none
    else if ds.all isDigitChar then
      some (ds.foldl (fun acc c => acc * 10 + (c.toNat - '0'.toNat : Int)) 0)
    else none

/-! ## Association-list model of the Go string maps -/

/-- Model of `map[string]string`: the code only gets, sets and deletes keys. -/
def SMap := List (List Char × List Char)

instance : DecidableEq SMap := by
  unfold SMap; infer_instance

def SMap.lookup (m : SMap) (k : List Char) : Option (List Char) :=
  match m with
  | [] => none
  | (a, b) :: t => if a = k then some b else SMap.lookup t k

/-- `m[k] = v`. -/
def SMap.set (m : SMap) (k v : List Char) : SMap :=
  match m with
  | [] => [(k, v)]
  | (a, b) :: t => if a = k then (k, v) :: t else (a, b) :: SMap.set t k v

/-- `delete(m, k)`. -/
def SMap.erase (m : SMap) (k : List Char) : SMap :=
  match m with
  | [] => []
  | (a, b) :: t => if a = k then SMap.erase t k else (a, b) :: SMap.erase t k

/-! ## Fetcher: single-attempt classification (`Fetcher.fetch`, lib/fetcher.go)

The current fetcher (`FetcherOptions` version): status 200 returns the body;
429 returns `FetchError{TooManyRequests, RetryAfter, StatusCode: 429}` where
`RetryAfter` is the parsed `Retry-After` header or the default 60; any other
status returns `FetchError{StatusCode}`. -/

/-- `defaultRetryAfter` from the source. -/
def defaultRetryAfter : Int := 60

/-- `defaultMaxRetryCount` from the source (current fetcher). -/
def defaultMaxRetryCount : Nat := 10

/-- Go `FetchError` struct. -/
structure FetchError where
  tooManyRequests : Bool
  retryAfter : Int
  statusCode : Nat
deriving DecidableEq, Repr

/-- A single HTTP response as seen by `Fetcher.fetch`; the `Retry-After`
header is the empty string when absent (Go `Header.Get` convention). -/
structure HTTPResponse where
  statusCode : Nat
  retryAfterHeader : List Char
  body : List Char
deriving DecidableEq, Repr

/-- The `Retry-After` seconds computed by `Fetcher.fetch` for a 429:
parse the header when present and parseable, else the default 60. -/
def retryAfterSeconds (hdr : List Char) : Int :=
  if hdr ≠ [] then
    match atoi hdr with
    | some seconds => seconds
    | none => defaultRetryAfter
  else defaultRetryAfter

/-- Response classification of `Fetcher.fetch` (part_001:283-306), after the
request succeeded at the transport level. -/
def classifyResponse (res : HTTPResponse) : Except FetchError (List Char) :=
  if res.statusCode ≠ 200 then
    if res.statusCode = 429 then
      .error ⟨true, retryAfterSeconds res.retryAfterHeader, res.statusCode⟩
    else
      .error ⟨false, 0, res.statusCode⟩
  else .ok res.body

/-! ## Fetcher: retry loop (`Fetcher.FetchURL`, part_001:222-261)

`FetchURL` wraps the attempt in `backoff.RetryNotify`:

* at the start of each attempt, if the retry counter has reached
  `defaultMaxRetryCount` the operation fails permanently ("max retry count
  reached"), without issuing a request;
* a `*FetchError` with `TooManyRequests` set increments the counter and is
  retried after the backoff policy's next interval;
* every other error is wrapped in `backoff.Permanent` and is terminal;
* the notify callback is a no-op: the `RetryAfter` value carried by a 429
  error is never used to schedule the next attempt.

The loop is modelled against a script of attempt outcomes (what `fetch`
would return on each successive call) and an abstract backoff policy
`bo : Nat → Option ℚ` giving the nanosecond delay before retry `i`
(`none` models `backoff.Stop`).  The rate limiter and context are modelled
as never blocking/cancelled (temporal concerns out of scope). -/

/-- Result of one call to `Fetcher.fetch`, as scripted. -/
inductive AttemptOutcome where
  | ok (body : List Char)
  | tooMany (retryAfter : Int)
  | httpErr (status : Nat)
  | netErr
deriving DecidableEq, Repr

/-- Terminal result of the simulated `FetchURL`. -/
inductive FetchFinalError where
  | fetchErr (e : FetchError)
  | netFail
  | maxRetries
  | scriptExhausted
deriving DecidableEq, Repr

/-- What `fetch` returns for a scripted outcome. -/
def outcomeResult : AttemptOutcome → Except FetchFinalError (List Char)
  | .ok b => .ok b
  | .tooMany r => .error (.fetchErr ⟨true, r, 429⟩)
  | .httpErr s => .error (.fetchErr ⟨false, 0, s⟩)
  | .netErr => .error .netFail

/-- The retry test of `FetchURL`: `fetchErr, ok := err.(*FetchError); ok &&
fetchErr.TooManyRequests`. -/
def isRetryableErr : FetchFinalError → Bool
  | .fetchErr e => e.tooManyRequests
  | _ => false

structure FetchSimResult where
  result : Except FetchFinalError (List Char)
  fetchCalls : Nat
  delays : List ℚ
deriving Repr

/-- The `RetryNotify` loop of `FetchURL`.  Arguments: remaining outcome
script, retry counter, backoff step, fetch calls so far, delays so far. -/
def fetchURLLoop (bo : Nat → Option ℚ) (outs : List AttemptOutcome)
    (counter step calls : Nat) (delays : List ℚ) : FetchSimResult :=
  if counter ≥ defaultMaxRetryCount then
    ⟨.error .maxRetries, calls, delays⟩
  else
    match outs with
    | [] => ⟨.error .scriptExhausted, calls, delays⟩
    | o :: rest =>
      match outcomeResult o with
      | .ok b => ⟨.ok b, calls + 1, delays⟩
      | .error e =>
        if isRetryableErr e then
          match bo step with
          | none => ⟨.error e, calls + 1, delays⟩
          | some d =>
            fetchURLLoop bo rest (counter + 1) (step + 1) (calls + 1) (delays ++ [d])
        else ⟨.error e, calls + 1, delays⟩

/-- `Fetcher.FetchURL` against an outcome script and a backoff policy. -/
def fetchURLSim (outs : List AttemptOutcome) (bo : Nat → Option ℚ) : FetchSimResult :=
  fetchURLLoop bo outs 0 0 0 []

/-- cenkalti/backoff `ExponentialBackOff` interval before retry `i`, in
nanoseconds, as configured by `makeDefaultBackoff` (part_001:310-317):
initial interval 500ms, multiplier 1.5, max interval 2min, randomization
factor 0.5.  `u` is the draw of the randomized scaling, which the library
keeps inside `[1 - 0.5, 1 + 0.5]`.  (`MaxElapsedTime` turns the interval
into `Stop` once 10 minutes of wall time have elapsed; wall time is not
modelled, theorems state the pre-stop behavior.) -/
def defaultBackoffNs (i : Nat) (u : ℚ) : ℚ :=
  min (500000000 * (3 / 2) ^ i) 120000000000 * u

/-- The delays a backoff policy hands out for `n` consecutive retries
starting at step `step` (0 stands in for the unreachable `Stop` case). -/
def boDelays (bo : Nat → Option ℚ) : Nat → Nat → List ℚ
  | _, 0 => []
  | step, n + 1 => (bo step).getD 0 :: boDelays bo (step + 1) n

/-- Replace every `Retry-After` value in an outcome script by `0`: scripts
related by this map describe the same sequence of HTTP statuses, differing
only in the `Retry-After` header values. -/
def normRetryAfter : AttemptOutcome → AttemptOutcome
  | .tooMany _ => .tooMany 0
  | o => o

/-- Formalization of claim C5 at the concrete input it gives as its example:
a single 429 attempt with `Retry-After: 2` followed by a success must, for
every admissible draw `u` of the backoff randomization, insert exactly one
delay of approximately 2 seconds (read generously: within a factor of two
of 2s) before the second attempt. -/
def claimC5AtTwoSeconds : Prop :=
  ∀ u : ℚ, 1 / 2 ≤ u → u ≤ 3 / 2 →
    ∃ d : ℚ,
      (fetchURLSim [.tooMany 2, .ok []] (fun i => some (defaultBackoffNs i u))).delays = [d]
        ∧ 1000000000 ≤ d ∧ d ≤ 4000000000

/-! ## Srcset parsing (`parseSrcsetEntries`, images.go:764-798)

`parseSrcsetEntries` first applies the Go regexp
`(https?://[^\s]+)\s+(\d+w)` with `FindAllStringSubmatch`.  For this
pattern, RE2's leftmost-first semantics reduce to deterministic maximal-run
scanning: `[^\s]+` must end exactly at the end of its non-space run (a
shorter match leaves a non-space character where `\s+` must match), `\s+`
must consume the whole whitespace run (a shorter match leaves whitespace
where `\d+` must match), and `\d+` must consume the whole digit run (a
shorter match leaves a digit where the literal `w` must match).  The scan
below implements exactly that. -/

def gs (s : String) : List Char := s.toList

def isHTTPURL (s : List Char) : Bool :=
  startsWithL (gs "http://") s || startsWithL (gs "https://") s

/-- One regexp match attempt at the head of `cs`: on success returns the
two submatches (URL, width descriptor) and the total matched length. -/
def srcsetMatchAt (cs : List Char) : Option (List Char × List Char × Nat) :=
  let sch : Option (List Char) :=
    if startsWithL (gs "https://") cs then some (gs "https://")
    else if startsWithL (gs "http://") cs then some (gs "http://")
    else none
  match sch with
  | none => none
  | some sch =>
    let rest := cs.drop sch.length
    let u := rest.takeWhile (fun c => !isRegexSpace c)
    if u = [] then none
    else
      let rest2 := rest.drop u.length
      let sp := rest2.takeWhile isRegexSpace
      if sp = [] then none
      else
        let rest3 := rest2.drop sp.length
        let d := rest3.takeWhile isDigitChar
        if d = [] then none
        else
          match rest3.drop d.length with
          | 'w' :: _ =>
            some (sch ++ u, d ++ ['w'], sch.length + u.length + sp.length + d.length + 1)
          | _ => none

/-- `FindAllStringSubmatch`: scan left to right, non-overlapping. -/
def srcsetScan : Nat → List Char → List (List Char × List Char)
  | 0, _ => []
  | _, [] => []
  | fuel + 1, c :: cs =>
    match srcsetMatchAt (c :: cs) with
    | some (u, w, n) => (u, w) :: srcsetScan fuel ((c :: cs).drop n)
    | none => srcsetScan fuel cs

def srcsetMatches (s : List Char) : List (List Char × List Char) :=
  srcsetScan s.length s

/-- `parseSrcsetEntries`: regexp matches rebuilt as `URL WIDTHw`; if the
regexp found nothing, fall back to comma splitting, keeping trimmed parts
whose first field is an http(s) URL. -/
def parseSrcsetEntries (s : List Char) : List (List Char) :=
  let ms := srcsetMatches s
  if ms ≠ [] then
    ms.map (fun p => p.1 ++ ' ' :: p.2)
  else
    (splitOnChar ',' s).filterMap (fun part =>
      let p := trimSpace part
      if p ≠ [] then
        match goFields p with
        | [] => none
        | f :: _ => if isHTTPURL f then some p else none
      else none)

/-- `extractAllURLsFromSrcset` (images.go:338-370). -/
def extractAllURLsFromSrcset (s : List Char) : List (List Char) :=
  if s = [] then []
  else
    (parseSrcsetEntries s).filterMap (fun entry =>
      let e := trimSpace entry
      if e = [] then none
      else
        match goFields e with
        | [] => none
        | u :: _ => if u ≠ [] ∧ isHTTPURL u then some u else none)

/-- The per-entry parse of `extractURLFromSrcset`: an entry contributes a
`(url, width)` candidate iff it has at least two fields, an http(s) first
field, and a width that parses after trimming one trailing `w`. -/
def entryCandidate (entry : List Char) : Option (List Char × Int) :=
  if trimSpace entry = [] then none
  else
    match goFields (trimSpace entry) with
    | u :: w1 :: _ =>
      if u ≠ [] ∧ isHTTPURL u then
        match atoi (trimSuffixL w1 ['w']) with
        | some width => some (u, width)
        | none => none
      else none
    | _ => none

/-- The running-best update of `extractURLFromSrcset` (images.go:396-398),
verbatim condition. -/
def srcsetBestStep (targetWidth : Int) (b : List Char × Int)
    (c : List Char × Int) : List Char × Int :=
  if c.2 = targetWidth ∨ (b.1 = [] ∨
      (c.2 ≥ targetWidth ∧ (b.2 < targetWidth ∨ c.2 < b.2)) ∨
      (c.2 < targetWidth ∧ b.2 < targetWidth ∧ c.2 > b.2)) then c else b

/-- `extractURLFromSrcset` (images.go:373-408). -/
def extractURLFromSrcset (s : List Char) (targetWidth : Int) : List Char :=
  ((parseSrcsetEntries s).foldl
    (fun b entry =>
      match entryCandidate entry with
      | some c => srcsetBestStep targetWidth b c
      | none => b)
    ([], 0)).1

/-- The candidate list an `extractURLFromSrcset` run considers. -/
def srcsetCandidates (s : List Char) : List (List Char × Int) :=
  (parseSrcsetEntries s).filterMap entryCandidate

/-- "Width `a` is at least as good as width `b` for target `t`": equal or
greater widths are preferred (the smaller of those wins), otherwise the
largest width below the target wins. -/
def widthBetter (t a b : Int) : Prop :=
  (a ≥ t ∧ (b < t ∨ a ≤ b)) ∨ (a < t ∧ b < t ∧ b ≤ a)

/-- `getTargetWidth` (images.go:324-335); `ImageQuality` is a Go string. -/
def getTargetWidth (quality : List Char) : Int :=
  if quality = gs "high" then 1456
  else if quality = gs "medium" then 848
  else if quality = gs "low" then 424
  else 1456

/-! ## The `data-attrs` attribute

`data-attrs` holds JSON.  The code `json.Unmarshal`s it into
`map[string]interface{}` and only ever reads/writes the `"src"` key when it
is a string; re-`Marshal` keeps the other members structurally.  The JSON
value is therefore modelled as either unparseable raw text or a parsed
object with an optional string `src` member plus opaque other members. -/
inductive DataAttrs where
  | unparseable (raw : List Char)
  | obj (src : Option (List Char)) (others : List (List Char × List Char))
deriving DecidableEq, Repr

/-- The `"src"` string member, when the JSON parses and has one. -/
def DataAttrs.srcField : DataAttrs → Option (List Char)
  | .unparseable _ => none
  | .obj src _ => src

/-- `updateDataAttrsJSON` (images.go:800-825). -/
def updateDataAttrsJSON (d : DataAttrs) (m : SMap) : DataAttrs :=
  match d with
  | .unparseable raw => .unparseable raw
  | .obj src others =>
    .obj
      (match src with
       | some u =>
         match SMap.lookup m u with
         | some rel => some rel
         | none => some u
       | none => none)
      others

/-! ## Image elements (`getImageElementInfo`, `getBestImageURL`,
`extractImageElements`, images.go:144-321)

An `<img>` is modelled by its three relevant attributes.  The `<a>`-href and
`<source>`-srcset merge loops of `extractImageElements` iterate a Go map
(nondeterministic order) and only ever append further URLs to a group's
`AllURLs`; theorems that depend on group contents therefore quantify over
arbitrary group lists, and the extraction model below covers the
deterministic `<img>`-scan part. -/

structure ImgEl where
  src : Option (List Char)
  srcset : Option (List Char)
  dataAttrs : Option DataAttrs
deriving DecidableEq, Repr

structure AEl where
  href : Option (List Char)
deriving DecidableEq, Repr

structure SourceEl where
  srcset : Option (List Char)
deriving DecidableEq, Repr

structure HTMLDocM where
  imgs : List ImgEl
  anchors : List AEl
  sources : List SourceEl
deriving DecidableEq, Repr

/-- The `data-attrs` candidate of `getBestImageURL`: present, parseable,
with a non-empty string `src`. -/
def dataAttrsBest (img : ImgEl) : Option (List Char) :=
  match img.dataAttrs with
  | some (.obj (some s) _) => if s ≠ [] then some s else none
  | _ => none

/-- `getBestImageURL` (images.go:291-321). -/
def getBestImageURL (img : ImgEl) (targetWidth : Int) : List Char :=
  match dataAttrsBest img with
  | some s => s
  | none =>
    let fromSrcset :=
      match img.srcset with
      | some ss => extractURLFromSrcset ss targetWidth
      | none => []
    if fromSrcset ≠ [] then fromSrcset
    else
      match img.src with
      | some s => s
      | none => []

/-- The `addURL` closure of `getImageElementInfo`: append if non-empty and
not already present. -/
def addUnique (l : List (List Char)) (u : List Char) : List (List Char) :=
  if u ≠ [] ∧ ¬ l.contains u then l ++ [u] else l

structure ImageElement where
  bestURL : List Char
  allURLs : List (List Char)
deriving DecidableEq, Repr

/-- `getImageElementInfo` (images.go:246-288). -/
def getImageElementInfo (img : ImgEl) (targetWidth : Int) : ImageElement :=
  let l1 : List (List Char) :=
    match img.dataAttrs with
    | some (.obj (some s) _) => if s ≠ [] then addUnique [] s else []
    | _ => []
  let l2 :=
    match img.srcset with
    | some ss => (extractAllURLsFromSrcset ss).foldl addUnique l1
    | none => l1
  let l3 :=
    match img.src with
    | some s => addUnique l2 s
    | none => l2
  { bestURL := getBestImageURL img targetWidth, allURLs := l3 }

/-- One `<img>` of the `extractImageElements` scan: keep the element when
its best URL is non-empty and unseen. -/
def imgScanStep (targetWidth : Int) (st : List ImageElement × List (List Char))
    (img : ImgEl) : List ImageElement × List (List Char) :=
  let e := getImageElementInfo img targetWidth
  if e.bestURL ≠ [] ∧ ¬ st.2.contains e.bestURL then
    (st.1 ++ [e], st.2 ++ [e.bestURL])
  else st

/-- The `<img>`-scan of `extractImageElements` (images.go:150-157):
elements with an empty best URL are dropped, the rest deduplicated by best
URL in document order. -/
def extractImageElementsImgs (imgs : List ImgEl) (targetWidth : Int) :
    List ImageElement :=
  (imgs.foldl (imgScanStep targetWidth) ([], [])).1

/-! ## Srcset rewriting (`updateSrcsetAttribute`, images.go:644-723) -/

/-- The replacement entry `updateSrcsetAttribute` builds for a mapped URL:
the relative path, keeping the width descriptor when present. -/
def pteNewEntry (rel : List Char) (rest : List (List Char)) : List Char :=
  match rest with
  | [] => rel
  | w :: _ => rel ++ ' ' :: w

/-- One entry of phase 1 of `updateSrcsetAttribute` (build `pathToEntry`). -/
def pteStep (m : SMap) (pte : SMap) (entry : List Char) : SMap :=
  if trimSpace entry = [] then pte
  else
    match goFields (trimSpace entry) with
    | [] => pte
    | url :: rest =>
      match SMap.lookup m url with
      | some rel =>
        match SMap.lookup pte rel with
        | some existing =>
          if rest ≠ [] ∧ ¬ (existing.contains ' ') then
            SMap.set pte rel (pteNewEntry rel rest)
          else pte
        | none => SMap.set pte rel (pteNewEntry rel rest)
      | none => SMap.set pte url (trimSpace entry)

/-- Phase 1 of `updateSrcsetAttribute`: build `pathToEntry`. -/
def srcsetPathToEntry (m : SMap) (entries : List (List Char)) : SMap :=
  entries.foldl (pteStep m) []

/-- One entry of phase 2 of `updateSrcsetAttribute`: emit the deduplicated
entry for this entry's key, deleting it from the map. -/
def rebuildStep (m : SMap) (st : List (List Char) × SMap) (entry : List Char) :
    List (List Char) × SMap :=
  if trimSpace entry = [] then st
  else
    match goFields (trimSpace entry) with
    | [] => st
    | url :: _ =>
      match SMap.lookup m url with
      | some rel =>
        match SMap.lookup st.2 rel with
        | some fe => (st.1 ++ [fe], SMap.erase st.2 rel)
        | none => st
      | none =>
        match SMap.lookup st.2 url with
        | some fe => (st.1 ++ [fe], SMap.erase st.2 url)
        | none => st

/-- Phase 2 of `updateSrcsetAttribute`: walk the entries again, emitting
each deduplicated entry once and deleting it from the map. -/
def srcsetRebuild (m : SMap) (entries : List (List Char))
    (st : List (List Char) × SMap) : List (List Char) × SMap :=
  entries.foldl (rebuildStep m) st

/-- The URL slot of a srcset entry: its first whitespace-separated field. -/
def firstField (v : List Char) : Option (List Char) :=
  (goFields v).head?

/-- The `pathToEntry` key phase 2 looks up for an entry: the mapped
relative path when the entry's URL is mapped, the URL itself otherwise. -/
def rebuildKey (m : SMap) (entry : List Char) : Option (List Char) :=
  if trimSpace entry = [] then none
  else
    match goFields (trimSpace entry) with
    | [] => none
    | url :: _ =>
      some (match SMap.lookup m url with
            | some rel => rel
            | none => url)

/-- A canonically shaped srcset entry: `URL WIDTHw`, the URL non-empty,
whitespace-free and http(s)-prefixed, the width a non-empty digit run.
This is the shape `parseSrcsetEntries` produces whenever its regexp
matched (and what the round-trip claim presumes of "entries"). -/
def EntryShape (e : List Char) : Prop :=
  ∃ u d, e = u ++ ' ' :: (d ++ ['w']) ∧ u ≠ []
    ∧ (∀ c ∈ u, isUniSpace c = false) ∧ isHTTPURL u = true
    ∧ d ≠ [] ∧ d.all isDigitChar = true

/-- Hygiene of a URL→relative-path map: paths are non-empty, contain no
whitespace, are not themselves http(s) URLs, and are not mapped keys. -/
def MapHygiene (m : SMap) : Prop :=
  ∀ k v, SMap.lookup m k = some v →
    v ≠ [] ∧ (∀ c ∈ v, isUniSpace c = false) ∧ isHTTPURL v = false
      ∧ SMap.lookup m v = none

/-- Provenance of a rewritten srcset entry over an original entry list
`E`: either an original entry kept unchanged, or an original `URL WIDTHw`
entry with its mapped URL replaced by the relative path and the width
descriptor preserved. -/
def ProvEntry (m : SMap) (E : List (List Char)) (v : List Char) : Prop :=
  v ∈ E ∨ ∃ u d rel, (u ++ ' ' :: (d ++ ['w'])) ∈ E
    ∧ SMap.lookup m u = some rel ∧ v = rel ++ ' ' :: (d ++ ['w'])
    ∧ d ≠ [] ∧ d.all isDigitChar = true

/-- The rewritten entry list of `updateSrcsetAttribute`. -/
def updateSrcsetEntryList (srcset : List Char) (m : SMap) : List (List Char) :=
  let entries := parseSrcsetEntries srcset
  (srcsetRebuild m entries ([], srcsetPathToEntry m entries)).1

/-- `updateSrcsetAttribute` (images.go:644-723). -/
def updateSrcsetAttribute (srcset : List Char) (m : SMap) : List Char :=
  if srcset = [] then srcset
  else List.intercalate (gs ", ") (updateSrcsetEntryList srcset m)

/-! ## HTML rewriting (`updateHTMLWithLocalPaths`, images.go:545-613)

The goquery pass rewrites, per element, exactly the attributes below; the
document model records those attributes.  (goquery's re-serialization also
normalizes surrounding markup; the claims speak about the URL-carrying
attribute positions, which is what is modelled.) -/

/-- Rewrite one plain URL attribute (img src / a href): replaced when
mapped, untouched otherwise. -/
def updateURLAttr (m : SMap) : Option (List Char) → Option (List Char)
  | some s =>
    match SMap.lookup m s with
    | some rel => some rel
    | none => some s
  | none => none

def updateImg (m : SMap) (img : ImgEl) : ImgEl :=
  { src := updateURLAttr m img.src,
    srcset := img.srcset.map (fun ss => updateSrcsetAttribute ss m),
    dataAttrs := img.dataAttrs.map (fun d => updateDataAttrsJSON d m) }

def updateAnchor (m : SMap) (a : AEl) : AEl :=
  { href := updateURLAttr m a.href }

def updateSource (m : SMap) (s : SourceEl) : SourceEl :=
  { srcset := s.srcset.map (fun ss => updateSrcsetAttribute ss m) }

/-- The structural part of `updateHTMLWithLocalPaths`, applied to the
already-relativized URL→path map. -/
def updateHTMLWithLocalPaths (doc : HTMLDocM) (m : SMap) : HTMLDocM :=
  { imgs := doc.imgs.map (updateImg m),
    anchors := doc.anchors.map (updateAnchor m),
    sources := doc.sources.map (updateSource m) }

/-- `filepath.Rel(outputDir, localPath)` for the shape the downloader
produces (`localPath = outputDir/<rest>`): drop the directory prefix; the
code falls back to the absolute path when `Rel` fails.  (Go's lexical
`..`-computation for unrelated paths is not needed on this shape.) -/
def relPathFromOutput (outputDir localPath : List Char) : List Char :=
  if startsWithL (outputDir ++ ['/']) localPath then
    localPath.drop (outputDir.length + 1)
  else localPath

/-- `strings.ReplaceAll(relPath, "\\", "/")`. -/
def slashify (p : List Char) : List Char :=
  p.map (fun c => if c = '\\' then '/' else c)

/-- The `urlToRelPath` map built at the top of `updateHTMLWithLocalPaths`
(images.go:553-564). -/
def toRelMap (outputDir : List Char) (m : SMap) : SMap :=
  m.map (fun kv => (kv.1, slashify (relPathFromOutput outputDir kv.2)))

/-! ## URL path/query helpers (`net/url`, `path/filepath` fragments)

Only the stdlib behavior the downloaders rely on is modelled, for the URL
shapes they meet (http(s) URLs without userinfo/escapes; `url.Parse` fails
only on control characters or malformed escapes, unreachable here). -/

/-- `url.Parse(u).Path` (query/fragment stripped; host skipped when a
scheme separator is present). -/
def goURLPath (u : List Char) : List Char :=
  let afterHost :=
    match indexOfFrom u (gs "://") with
    | some i => (u.drop (i + 3)).dropWhile (fun c => c ≠ '/')
    | none => u
  afterHost.takeWhile (fun c => c ≠ '?' && c ≠ '#')

/-- `url.Parse(u).RawQuery`. -/
def goURLQuery (u : List Char) : List Char :=
  match indexOfFrom u ['?'] with
  | some i => (u.drop (i + 1)).takeWhile (fun c => c ≠ '#')
  | none => []

/-- `parsed.Query().Get(key)`: first value of `key` in the query string
(values in the modelled inputs carry no percent-escapes). -/
def queryGet (u : List Char) (key : List Char) : List Char :=
  let pairs := splitOnChar '&' (goURLQuery u)
  match pairs.filterMap (fun kv =>
    let k := kv.takeWhile (fun c => c ≠ '=')
    if k = key then
      some (match kv.drop k.length with
            | '=' :: v => v
            | _ => [])
    else none) with
  | [] => []
  | v :: _ => v

/-- `filepath.Base`. -/
def filepathBase (p : List Char) : List Char :=
  if p = [] then ['.']
  else
    let q := (p.reverse.dropWhile (fun c => c = '/')).reverse
    if q = [] then ['/']
    else (q.reverse.takeWhile (fun c => c ≠ '/')).reverse

/-- `filepath.Ext`: suffix starting at the last dot in the final element. -/
def filepathExt (p : List Char) : List Char :=
  let revTail := p.reverse.takeWhile (fun c => c ≠ '.' && c ≠ '/')
  match p.reverse.drop revTail.length with
  | '.' :: _ => '.' :: revTail.reverse
  | _ => []

/-- The filesystem-invalid characters both downloaders replace:
regexp `[<>:"/\\|?*]`. -/
def isInvalidFSChar (c : Char) : Bool :=
  c = '<' || c = '>' || c = ':' || c = '"' || c = '/' || c = '\\' ||
    c = '|' || c = '?' || c = '*'

/-! ## Image filenames (`ImageDownloader.generateSafeFilename`,
images.go:460-508) -/

def isUUIDClassChar (c : Char) : Bool :=
  ('a' ≤ c && c ≤ 'f') || isDigitChar c || c = '-'

/-- One attempt, anchored at the head, of the Go regexp
`([a-f0-9-]{36})_(\d+x\d+)\.(jpeg|jpg|png|webp)` (fixed repetition and
maximal digit runs make it deterministic); returns (uuid, dims, ext). -/
def substackMatchAt (cs : List Char) : Option (List Char × List Char × List Char) :=
  let u36 := cs.take 36
  if u36.length = 36 ∧ u36.all isUUIDClassChar then
    match cs.drop 36 with
    | '_' :: rest =>
      let d1 := rest.takeWhile isDigitChar
      if d1 = [] then none
      else
        match rest.drop d1.length with
        | 'x' :: rest2 =>
          let d2 := rest2.takeWhile isDigitChar
          if d2 = [] then none
          else
            match rest2.drop d2.length with
            | '.' :: rest3 =>
              if startsWithL (gs "jpeg") rest3 then some (u36, d1 ++ 'x' :: d2, gs "jpeg")
              else if startsWithL (gs "jpg") rest3 then some (u36, d1 ++ 'x' :: d2, gs "jpg")
              else if startsWithL (gs "png") rest3 then some (u36, d1 ++ 'x' :: d2, gs "png")
              else if startsWithL (gs "webp") rest3 then some (u36, d1 ++ 'x' :: d2, gs "webp")
              else none
            | _ => none
        | _ => none
    | _ => none
  else none

/-- Leftmost match of the Substack image-id regexp. -/
def substackIDScan : Nat → List Char → Option (List Char × List Char × List Char)
  | 0, _ => none
  | _, [] => none
  | fuel + 1, c :: cs =>
    match substackMatchAt (c :: cs) with
    | some r => some r
    | none => substackIDScan fuel cs

/-- `ImageDownloader.generateSafeFilename` (images.go:460-508). -/
def generateSafeFilename (imageURL : List Char) : List Char :=
  let filename0 := filepathBase (goURLPath imageURL)
  let filename1 :=
    if filename0 = [] ∨ filename0 = ['/'] ∨ filename0 = ['.'] then
      let fromID :=
        if containsSub imageURL (gs "substack") then
          match substackIDScan imageURL.length imageURL with
          | some (uuid, dims, ext) => uuid.take 8 ++ '_' :: dims ++ '.' :: ext
          | none => []
        else []
      if fromID = [] then gs "image.jpg" else fromID
    else filename0
  let cleaned := filename1.map (fun c => if isInvalidFSChar c then '_' else c)
  let cleaned2 :=
    if cleaned = [] ∨ cleaned = ['_'] ∨ cleaned = gs "__" then gs "image.jpg"
    else cleaned
  if cleaned2.length > 200 then
    let ext := filepathExt cleaned2
    let name := trimSuffixL cleaned2 ext
    if ext.length < 200 then name.take (200 - ext.length) ++ ext
    else gs "image.jpg"
  else cleaned2

/-! ## File-attachment filenames (`FileDownloader`, part_003:1066-1222) -/

/-- `FileDownloader.extractFilenameFromURL` (part_003:1066-1093). -/
def extractFilenameFromURL (downloadURL : List Char) : List Char :=
  let path := goURLPath downloadURL
  let fromPath :=
    if path ≠ [] ∧ path ≠ ['/'] then
      match lastIndexOf path ['/'] with
      | some lastSlash =>
        if lastSlash + 1 < path.length then
          let filename := path.drop (lastSlash + 1)
          if filename ≠ [] ∧ filename ≠ ['.'] then filename else []
        else []
      | none => []
    else []
  if fromPath ≠ [] then fromPath
  else queryGet downloadURL (gs "filename")

/-- Two lowercase hex digits of a byte (`fmt.Sprintf("%x", []byte(url))`). -/
def byteHex (n : Nat) : List Char :=
  let dig := fun (d : Nat) => if d < 10 then Char.ofNat ('0'.toNat + d)
    else Char.ofNat ('a'.toNat + d - 10)
  [dig ((n / 16) % 16), dig (n % 16)]

/-- `FileDownloader.generateSafeFilename` (part_003:1194-1200): timestamp
plus the first 8 hex digits of the URL bytes.  The wall-clock `time.Now` is
passed in as `nowUnix`. -/
def generateSafeFileFilename (nowUnix : Int) (downloadURL : List Char) : List Char :=
  gs "file_" ++ (toString nowUnix).toList ++ '_' ::
    ((downloadURL.foldr (fun c acc => byteHex c.toNat ++ acc) []).take 8)

/-- `FileDownloader.sanitizeFilename` (part_003:1202-1222). -/
def sanitizeFilename (filename : List Char) : List Char :=
  let safe := filename.map (fun c => if isInvalidFSChar c then '_' else c)
  let trimmed :=
    ((safe.dropWhile (fun c => c = ' ' || c = '.')).reverse.dropWhile
      (fun c => c = ' ' || c = '.')).reverse
  let nonEmpty := if trimmed = [] then gs "attachment" else trimmed
  if nonEmpty.length > 200 then nonEmpty.take 200 else nonEmpty

/-! ## Single-asset downloads

Filesystem writes always succeed in the model (fs error paths are recorded
failures, orthogonal to the claims); `fetchOk u` scripts whether fetching
`u` succeeds; `fs p` scripts whether path `p` already exists on disk. -/

structure AssetInfoSim where
  originalURL : List Char
  localPath : List Char
  success : Bool
  /-- whether a network fetch was performed for this asset -/
  fetched : Bool
deriving DecidableEq, Repr

/-- The local target path `downloadSingleFile` computes
(`filepath.Join(filesPath, filename)`). -/
def fileLocalPath (nowUnix : Int) (filesPath downloadURL : List Char) : List Char :=
  let fn0 := extractFilenameFromURL downloadURL
  let fn1 := if fn0 = [] then generateSafeFileFilename nowUnix downloadURL else fn0
  filesPath ++ '/' :: sanitizeFilename fn1

/-- `FileDownloader.downloadSingleFile` (part_003:1116-1192): compute the
filename, and if the target path already exists return success without
fetching; otherwise fetch. -/
def downloadSingleFileSim (fs : List Char → Bool) (fetchOk : List Char → Bool)
    (nowUnix : Int) (filesPath downloadURL : List Char) : AssetInfoSim :=
  let localPath := fileLocalPath nowUnix filesPath downloadURL
  if fs localPath then ⟨downloadURL, localPath, true, false⟩
  else if fetchOk downloadURL then ⟨downloadURL, localPath, true, true⟩
  else ⟨downloadURL, localPath, false, true⟩

/-- The local target path `downloadSingleImage` computes. -/
def imageLocalPath (imagesPath imageURL : List Char) : List Char :=
  imagesPath ++ '/' :: generateSafeFilename imageURL

/-- `ImageDownloader.downloadSingleImage` (images.go:411-457): compute the
filename and fetch unconditionally — the function never consults the
filesystem before fetching.  The `fs` argument is threaded only so the
existing-file hypothesis of claim C2 can be stated; the body does not use
it, mirroring the source. -/
def downloadSingleImageSim (_fs : List Char → Bool) (fetchOk : List Char → Bool)
    (imagesPath imageURL : List Char) : AssetInfoSim :=
  let localPath := imageLocalPath imagesPath imageURL
  if fetchOk imageURL then ⟨imageURL, localPath, true, true⟩
  else ⟨imageURL, localPath, false, true⟩

/-! ## Batch downloads and the URL→local-path maps -/

/-- One group of the `DownloadImages` loop (images.go:108-119): download
the best URL; on success, map ALL the group's URLs to the local path. -/
def imagesDLStep (fs : List Char → Bool) (fetchOk : List Char → Bool)
    (imagesPath : List Char) (st : List AssetInfoSim × SMap)
    (e : ImageElement) : List AssetInfoSim × SMap :=
  let info := downloadSingleImageSim fs fetchOk imagesPath e.bestURL
  (st.1 ++ [info],
    if info.success then
      e.allURLs.foldl (fun m u => SMap.set m u info.localPath) st.2
    else st.2)

/-- The download-and-map loop of `DownloadImages`. -/
def downloadImagesSim (fs : List Char → Bool) (fetchOk : List Char → Bool)
    (imagesPath : List Char) (elems : List ImageElement) :
    List AssetInfoSim × SMap :=
  elems.foldl (imagesDLStep fs fetchOk imagesPath) ([], [])

/-- One URL of the `DownloadFiles` loop (part_003:992-1000). -/
def filesDLStep (fs : List Char → Bool) (fetchOk : List Char → Bool)
    (nowUnix : Int) (filesPath : List Char) (st : List AssetInfoSim × SMap)
    (u : List Char) : List AssetInfoSim × SMap :=
  let info := downloadSingleFileSim fs fetchOk nowUnix filesPath u
  (st.1 ++ [info],
    if info.success then SMap.set st.2 u info.localPath else st.2)

/-- The download-and-map loop of `DownloadFiles`: on success, map the
element's download URL to its local path. -/
def downloadFilesSim (fs : List Char → Bool) (fetchOk : List Char → Bool)
    (nowUnix : Int) (filesPath : List Char) (urls : List (List Char)) :
    List AssetInfoSim × SMap :=
  urls.foldl (filesDLStep fs fetchOk nowUnix filesPath) ([], [])

/-- Formal reading of claim C2 for the image downloader: whenever the
computed target file already exists, the download performs no network
fetch and reports success. -/
def claimC2ImagesSkipExisting : Prop :=
  ∀ (fs fetchOk : List Char → Bool) (imagesPath imageURL : List Char),
    fs (downloadSingleImageSim fs fetchOk imagesPath imageURL).localPath = true →
      (downloadSingleImageSim fs fetchOk imagesPath imageURL).fetched = false
        ∧ (downloadSingleImageSim fs fetchOk imagesPath imageURL).success = true

/-- Formal reading of claim C1's per-group map consistency: every produced
URL→local-path map sends every variant of a successful group to that
group's own local path. -/
def claimC1MapConsistent : Prop :=
  ∀ (fs fetchOk : List Char → Bool) (imagesPath : List Char)
    (elems : List ImageElement) (e : ImageElement),
    e ∈ elems →
    (downloadSingleImageSim fs fetchOk imagesPath e.bestURL).success = true →
    ∀ u, u ∈ e.allURLs →
      SMap.lookup (downloadImagesSim fs fetchOk imagesPath elems).2 u
        = some (downloadSingleImageSim fs fetchOk imagesPath e.bestURL).localPath

/-- Formal reading of claim C10's frame property at the srcset position:
if no URL of a srcset attribute is in the map, rewriting leaves the
attribute byte-for-byte unchanged. -/
def claimC10SrcsetUntouched : Prop :=
  ∀ (ss : List Char) (m : SMap),
    (∀ e ∈ parseSrcsetEntries ss, ∀ u, firstField e = some u →
      SMap.lookup m u = none) →
    updateSrcsetAttribute ss m = ss

/-! ## Post extraction (`extractJSONString`, `ExtractPost`,
part_006:894-960)

A fetched page is modelled by the list of its `<script>` texts in document
order. -/

/-- The marker test of `extractJSONString`. -/
def scriptMarkers (content : List Char) : Bool :=
  containsSub content (gs "window._preloads") &&
    containsSub content (gs "JSON.parse(")

/-- What `extractJSONString` does with one script: `none` means "keep
scanning" (markers missing, or delimiters absent/malformed). -/
def scriptExtract (content : List Char) : Option (List Char) :=
  if scriptMarkers content then
    match indexOfFrom content (gs "JSON.parse(\"") with
    | none => none
    | some i =>
      let start := i + (gs "JSON.parse(\"").length
      match lastIndexOf content (gs "\")") with
      | none => none
      | some e => if start ≥ e then none else some ((content.take e).drop start)
  else none

/-- `extractJSONString` (part_006:896-926): first script that yields an
extraction wins; otherwise the explicit error. -/
def extractJSONString (scripts : List (List Char)) : Except (List Char) (List Char) :=
  match scripts.findSome? scriptExtract with
  | some js => .ok js
  | none => .error (gs "failed to extract JSON string")

/-- The modelled `Post` (extract.go): only identifying fields are needed. -/
structure Post where
  id : Int
  title : List Char
  slug : List Char
  bodyHTML : List Char
deriving DecidableEq, Repr

def zeroPost : Post := ⟨0, [], [], []⟩

/-- `Extractor.ExtractPost` (part_006:928-960) after the page fetch: the
JSON-string unescape and `RawPost.ToPost` steps are abstracted as
`parsePost` (they run only when delimiter extraction succeeded). -/
def extractPostSim (scripts : List (List Char))
    (parsePost : List Char → Except (List Char) Post) : Post × Option (List Char) :=
  match extractJSONString scripts with
  | .error e => (zeroPost, some (gs "failed to extract post data: " ++ e))
  | .ok js =>
    match parsePost js with
    | .error e => (zeroPost, some e)
    | .ok p => (p, none)

/-! ## Sitemap enumeration (`GetAllPostsURLs`, part_006:964-1019) -/

structure SitemapEntry where
  loc : List Char
  lastmod : List Char
deriving DecidableEq, Repr

/-- The `<url>`-entry walk of `GetAllPostsURLs` (the context is modelled as
never cancelled, so `EachWithBreak` is a plain fold): keep `<loc>` values
containing `/p/`, and when a date filter is supplied keep only entries
whose `<lastmod>` passes it. -/
def getAllPostsURLs (entries : List SitemapEntry) (f : Option (List Char → Bool)) :
    List (List Char) :=
  entries.foldl
    (fun urls s =>
      if ¬ containsSub s.loc (gs "/p/") then urls
      else
        match f with
        | some p => if ¬ p s.lastmod then urls else urls ++ [s.loc]
        | none => urls ++ [s.loc])
    []

/-- `u.Path = url.JoinPath(u.Path, "sitemap.xml")` for clean paths
(`JoinPath`'s `..`/`.` cleaning is not needed on publication URLs). -/
def joinPathGo (a b : List Char) : List Char :=
  if a = [] then b
  else (a.reverse.dropWhile (fun c => c = '/')).reverse ++ '/' :: b

/-- The URL fetched by `GetAllPostsURLs`: scheme://host + joined path, with
Go's `URL.String` rule of inserting `/` before a rootless path when a host
is present.  (Publication URLs carry no query/fragment.) -/
def sitemapURL (pubUrl : List Char) : List Char :=
  match indexOfFrom pubUrl (gs "://") with
  | none => joinPathGo pubUrl (gs "sitemap.xml")
  | some i =>
    let schemeSep := pubUrl.take (i + 3)
    let rest := pubUrl.drop (i + 3)
    let host := rest.takeWhile (fun c => c ≠ '/')
    let path := rest.dropWhile (fun c => c ≠ '/')
    let newPath := joinPathGo path (gs "sitemap.xml")
    let newPath' :=
      if host ≠ [] ∧ ¬ startsWithL ['/'] newPath then '/' :: newPath else newPath
    schemeSep ++ host ++ newPath'

/-! # Theorems -/

/-! ## Association-list map laws -/

theorem SMap.lookup_set (m : SMap) (k v q : List Char) :
    SMap.lookup (SMap.set m k v) q = if k = q then some v else SMap.lookup m q := by
  induction m with
  | nil =>
    by_cases h : k = q <;> simp [SMap.set, SMap.lookup, h]
  | cons p t ih =>
    obtain ⟨a, b⟩ := p
    by_cases hak : a = k
    · by_cases hkq : k = q <;> simp [SMap.set, SMap.lookup, hak, hkq]
    · by_cases haq : a = q
      · have hkq : ¬ k = q := fun h => hak (haq.trans h.symm)
        have hqk : ¬ q = k := fun h => hkq h.symm
        simp [SMap.set, SMap.lookup, hak, haq, hkq, hqk]
      · simp [SMap.set, SMap.lookup, hak, haq, ih]

theorem SMap.lookup_erase (m : SMap) (k q : List Char) :
    SMap.lookup (SMap.erase m k) q = if k = q then none else SMap.lookup m q := by
  induction m with
  | nil =>
    by_cases h : k = q <;> simp [SMap.erase, SMap.lookup, h]
  | cons p t ih =>
    obtain ⟨a, b⟩ := p
    by_cases hak : a = k
    · by_cases hkq : k = q
      · simpa [SMap.erase, hak, hkq] using ih
      · have haq : ¬ a = q := fun h => hkq (hak ▸ h)
        simp [SMap.erase, SMap.lookup, hak, haq, hkq, ih]
    · by_cases haq : a = q
      · have hkq : ¬ k = q := fun h => hak (haq.trans h.symm)
        have hqk : ¬ q = k := fun h => hkq h.symm
        simp [SMap.erase, SMap.lookup, hak, haq, hkq, hqk]
      · simp [SMap.erase, SMap.lookup, hak, haq, ih]

/-! ## Fetch layer -/

/-- **C3.** A single fetch attempt classifies the response as follows:
status 200 returns the body with no error; status 429 returns a typed error
marked too-many-requests carrying the Retry-After header value in seconds,
defaulting to 60 when the header is absent or unparsable; any other non-200
status returns a terminal error carrying that status code. -/
theorem c3_fetch_classification (res : HTTPResponse) :
    (res.statusCode = 200 → classifyResponse res = .ok res.body)
      ∧ (res.statusCode = 429 →
          classifyResponse res =
            .error ⟨true, retryAfterSeconds res.retryAfterHeader, 429⟩)
      ∧ ((res.retryAfterHeader = [] ∨ atoi res.retryAfterHeader = none) →
          retryAfterSeconds res.retryAfterHeader = 60)
      ∧ (∀ n : Int, atoi res.retryAfterHeader = some n →
          retryAfterSeconds res.retryAfterHeader = n)
      ∧ (res.statusCode ≠ 200 → res.statusCode ≠ 429 →
          classifyResponse res = .error ⟨false, 0, res.statusCode⟩) := by
  refine ⟨?_, ?_, ?_, ?_, ?_⟩
  · intro h200
    simp [classifyResponse, h200]
  · intro h429
    simp [classifyResponse, h429]
  · intro habs
    rcases habs with h | h
    · simp [retryAfterSeconds, h, defaultRetryAfter]
    · by_cases he : res.retryAfterHeader = [] <;>
        simp [retryAfterSeconds, he, h, defaultRetryAfter]
  · intro n hn
    have hne : res.retryAfterHeader ≠ [] := by
      intro he
      rw [he] at hn
      simp [atoi] at hn
    simp [retryAfterSeconds, hne, hn]
  · intro hn200 hn429
    simp [classifyResponse, hn200, hn429]

/-- Witness for C3 at concrete responses. -/
theorem c3_fetch_classification_witness :
    classifyResponse ⟨429, ['2'], []⟩ = .error ⟨true, 2, 429⟩
      ∧ classifyResponse ⟨429, [], []⟩ = .error ⟨true, 60, 429⟩
      ∧ classifyResponse ⟨200, [], ['x']⟩ = .ok ['x']
      ∧ classifyResponse ⟨404, [], []⟩ = .error ⟨false, 0, 404⟩ := by
  have h2 : retryAfterSeconds ['2'] = 2 := by decide
  have h60 : retryAfterSeconds [] = 60 := by decide
  refine ⟨?_, ?_, ?_, ?_⟩
  · have h := (c3_fetch_classification ⟨429, ['2'], []⟩).2.1 rfl
    rw [h, h2]
  · have h := (c3_fetch_classification ⟨429, [], []⟩).2.1 rfl
    rw [h, h60]
  · exact (c3_fetch_classification ⟨200, [], ['x']⟩).1 rfl
  · exact (c3_fetch_classification ⟨404, [], []⟩).2.2.2.2 (by decide) (by decide)

/-- Running the retry loop over a block of `tooMany` outcomes: each 429
increments the counter, consumes one backoff delay, and the loop continues. -/
theorem fetchURLLoop_tooMany_run (bo : Nat → Option ℚ) (rs : List Int)
    (rest : List AttemptOutcome) (counter step calls : Nat) (delays : List ℚ)
    (hcount : counter + rs.length ≤ defaultMaxRetryCount)
    (hbo : ∀ j, j < rs.length → (bo (step + j)).isSome) :
    fetchURLLoop bo (rs.map .tooMany ++ rest) counter step calls delays =
      fetchURLLoop bo rest (counter + rs.length) (step + rs.length)
        (calls + rs.length) (delays ++ boDelays bo step rs.length) := by
  induction rs generalizing counter step calls delays with
  | nil => simp [boDelays]
  | cons r rs ih =>
    have hc : ¬ counter ≥ defaultMaxRetryCount := by
      simp only [List.length_cons] at hcount
      omega
    have hbo0 : (bo step).isSome := by
      have := hbo 0 (by simp)
      simpa using this
    obtain ⟨d, hd⟩ := Option.isSome_iff_exists.mp hbo0
    rw [List.map_cons, List.cons_append, fetchURLLoop, if_neg hc]
    simp only [outcomeResult, isRetryableErr, hd, if_pos rfl]
    rw [ih (counter + 1) (step + 1) (calls + 1) (delays ++ [d])
      (by simp only [List.length_cons] at hcount; omega)
      (fun j hj => by
        have := hbo (j + 1) (by simp only [List.length_cons]; omega)
        simpa [Nat.add_assoc, Nat.add_comm 1 j] using this)]
    have e1 : counter + 1 + rs.length = counter + (r :: rs).length := by simp; omega
    have e2 : step + 1 + rs.length = step + (r :: rs).length := by simp; omega
    have e3 : calls + 1 + rs.length = calls + (r :: rs).length := by simp; omega
    have e4 : delays ++ [d] ++ boDelays bo (step + 1) rs.length
        = delays ++ boDelays bo step (r :: rs).length := by
      rw [List.append_assoc, List.singleton_append, List.length_cons, boDelays, hd]
      rfl
    rw [e1, e2, e3, e4]
    simp

/-- **C4.** In `FetchURL`'s retry loop, only a 429 error is retried, each
429 increments the retry counter, and once the counter reaches the
configured maximum (10 by default) the operation fails permanently with the
"max retries reached" error after exactly 10 fetches; a success after at
most 9 429s returns the body; every non-429 error (other HTTP status, or a
transport error) is immediately terminal: exactly one more fetch happens
and the remaining script is never consulted.  `bo` never returning `none`
models the backoff policy not having hit its `MaxElapsedTime` stop. -/
theorem c4_retry_policy (bo : Nat → Option ℚ) (rs : List Int)
    (rest : List AttemptOutcome) (hbo : ∀ j, (bo j).isSome) :
    (rs.length = defaultMaxRetryCount →
      (fetchURLSim (rs.map .tooMany ++ rest) bo).result = .error .maxRetries
        ∧ (fetchURLSim (rs.map .tooMany ++ rest) bo).fetchCalls = defaultMaxRetryCount)
      ∧ (∀ b, rs.length < defaultMaxRetryCount →
          (fetchURLSim (rs.map .tooMany ++ .ok b :: rest) bo).result = .ok b
            ∧ (fetchURLSim (rs.map .tooMany ++ .ok b :: rest) bo).fetchCalls
                = rs.length + 1)
      ∧ (∀ s, rs.length < defaultMaxRetryCount →
          (fetchURLSim (rs.map .tooMany ++ .httpErr s :: rest) bo).result
              = .error (.fetchErr ⟨false, 0, s⟩)
            ∧ (fetchURLSim (rs.map .tooMany ++ .httpErr s :: rest) bo).fetchCalls
                = rs.length + 1)
      ∧ (rs.length < defaultMaxRetryCount →
          (fetchURLSim (rs.map .tooMany ++ .netErr :: rest) bo).result
              = .error .netFail
            ∧ (fetchURLSim (rs.map .tooMany ++ .netErr :: rest) bo).fetchCalls
                = rs.length + 1) := by
  have hrun : ∀ (tail : List AttemptOutcome), rs.length ≤ defaultMaxRetryCount →
      fetchURLSim (rs.map .tooMany ++ tail) bo =
        fetchURLLoop bo tail rs.length rs.length rs.length
          (boDelays bo 0 rs.length) := by
    intro tail hlen
    unfold fetchURLSim
    rw [fetchURLLoop_tooMany_run bo rs tail 0 0 0 [] (by omega)
      (fun j _ => by simpa using hbo j)]
    simp
  refine ⟨?_, ?_, ?_, ?_⟩
  · intro hlen
    rw [hrun rest (by omega), hlen, fetchURLLoop.eq_def]
    simp [defaultMaxRetryCount]
  · intro b hlen
    rw [hrun (.ok b :: rest) (by omega), fetchURLLoop.eq_def]
    simp [Nat.not_le.mpr hlen, outcomeResult]
  · intro s hlen
    rw [hrun (.httpErr s :: rest) (by omega), fetchURLLoop.eq_def]
    simp [Nat.not_le.mpr hlen, outcomeResult, isRetryableErr]
  · intro hlen
    rw [hrun (.netErr :: rest) (by omega), fetchURLLoop.eq_def]
    simp [Nat.not_le.mpr hlen, outcomeResult, isRetryableErr]

/-- Witness for C4: ten 429s exhaust the retries; a 404 after two 429s is
terminal after exactly three fetches. -/
theorem c4_retry_policy_witness :
    (fetchURLSim (List.replicate 10 (AttemptOutcome.tooMany 1)) (fun _ => some 1)).result
        = .error .maxRetries
      ∧ (fetchURLSim [.tooMany 1, .tooMany 1, .httpErr 404] (fun _ => some 1)).result
          = .error (.fetchErr ⟨false, 0, 404⟩)
      ∧ (fetchURLSim [.tooMany 1, .tooMany 1, .httpErr 404] (fun _ => some 1)).fetchCalls
          = 3 := by
  have h10 : List.replicate 10 (AttemptOutcome.tooMany 1)
      = ([1, 1, 1, 1, 1, 1, 1, 1, 1, 1] : List Int).map .tooMany ++ ([] : List AttemptOutcome) := by
    decide
  have h3 : ([.tooMany 1, .tooMany 1, .httpErr 404] : List AttemptOutcome)
      = ([1, 1] : List Int).map .tooMany ++ .httpErr 404 :: ([] : List AttemptOutcome) := by
    decide
  refine ⟨?_, ?_, ?_⟩
  · rw [h10]
    exact (c4_retry_policy (fun _ => some 1) [1, 1, 1, 1, 1, 1, 1, 1, 1, 1] []
      (fun _ => rfl)).1 (by decide) |>.1
  · rw [h3]
    exact ((c4_retry_policy (fun _ => some 1) [1, 1] [] (fun _ => rfl)).2.2.1 404
      (by decide)).1
  · rw [h3]
    exact ((c4_retry_policy (fun _ => some 1) [1, 1] [] (fun _ => rfl)).2.2.1 404
      (by decide)).2

/-- The delays and fetch-call count of the retry loop do not depend on the
`Retry-After` values carried by 429 errors. -/
theorem fetchURLLoop_delays_normRetryAfter (bo : Nat → Option ℚ)
    (outs : List AttemptOutcome) (counter step calls : Nat) (delays : List ℚ) :
    (fetchURLLoop bo (outs.map normRetryAfter) counter step calls delays).delays
        = (fetchURLLoop bo outs counter step calls delays).delays
      ∧ (fetchURLLoop bo (outs.map normRetryAfter) counter step calls delays).fetchCalls
        = (fetchURLLoop bo outs counter step calls delays).fetchCalls := by
  induction outs generalizing counter step calls delays with
  | nil => simp
  | cons o rest ih =>
    by_cases hc : counter ≥ defaultMaxRetryCount
    · rw [List.map_cons, fetchURLLoop, fetchURLLoop]
      simp [hc]
    · cases o with
      | ok b =>
        rw [List.map_cons, fetchURLLoop, fetchURLLoop]
        simp [hc, normRetryAfter, outcomeResult]
      | tooMany r =>
        rw [List.map_cons, fetchURLLoop, fetchURLLoop]
        simp only [hc, if_false, normRetryAfter, outcomeResult, isRetryableErr, if_pos rfl]
        cases bo step with
        | none => simp
        | some d => simpa using ih (counter + 1) (step + 1) (calls + 1) (delays ++ [d])
      | httpErr s =>
        rw [List.map_cons, fetchURLLoop, fetchURLLoop]
        simp [hc, normRetryAfter, outcomeResult, isRetryableErr]
      | netErr =>
        rw [List.map_cons, fetchURLLoop, fetchURLLoop]
        simp [hc, normRetryAfter, outcomeResult, isRetryableErr]

/-- A single 429 followed by a success inserts exactly one delay: the
backoff policy's first interval, whatever `Retry-After: r` said. -/
theorem fetchURLSim_tooMany_delays (r : Int) (u : ℚ) :
    (fetchURLSim [.tooMany r, .ok []]
        (fun i => some (defaultBackoffNs i u))).delays = [defaultBackoffNs 0 u] := by
  rw [fetchURLSim, fetchURLLoop]
  simp only [defaultMaxRetryCount, ge_iff_le, outcomeResult, isRetryableErr, if_pos rfl]
  rw [fetchURLLoop]
  simp [outcomeResult, defaultMaxRetryCount]

/-- **C5 (amended).** The delay inserted before a retry comes solely from
the exponential backoff policy: it is independent of the `Retry-After`
value carried by the 429 error (the notify callback in the current
`FetchURL` is a no-op), and for a single 429 followed by a success the one
inserted delay is exactly the backoff policy's first interval, whatever
`Retry-After: r` said and whatever randomization `u` was drawn. -/
theorem c5_delay_from_backoff_only (bo : Nat → Option ℚ)
    (outs : List AttemptOutcome) (r : Int) (u : ℚ) :
    (fetchURLSim (outs.map normRetryAfter) bo).delays = (fetchURLSim outs bo).delays
      ∧ (fetchURLSim (outs.map normRetryAfter) bo).fetchCalls
          = (fetchURLSim outs bo).fetchCalls
      ∧ (fetchURLSim [.tooMany r, .ok []]
            (fun i => some (defaultBackoffNs i u))).delays = [defaultBackoffNs 0 u] := by
  exact ⟨(fetchURLLoop_delays_normRetryAfter bo outs 0 0 0 []).1,
    (fetchURLLoop_delays_normRetryAfter bo outs 0 0 0 []).2,
    fetchURLSim_tooMany_delays r u⟩

/-- The info list produced by the `DownloadFiles` loop is the per-URL
download results in order, independent of the accumulated map. -/
theorem downloadFilesSim_fst (fs : List Char → Bool) (fetchOk : List Char → Bool)
    (nowUnix : Int) (filesPath : List Char) (urls : List (List Char))
    (acc : List AssetInfoSim) (m : SMap) :
    (urls.foldl (filesDLStep fs fetchOk nowUnix filesPath) (acc, m)).1
      = acc ++ urls.map (fun u => downloadSingleFileSim fs fetchOk nowUnix filesPath u) := by
  induction urls generalizing acc m with
  | nil => simp
  | cons u rest ih =>
    simp only [List.foldl_cons, List.map_cons]
    rw [filesDLStep, ih]
    simp

/-- **C2 (amended).** For file attachments the claim holds: an asset whose
target file already exists is reported successful with no network fetch,
and a batch over a directory where every target exists performs zero
fetches and reports every asset successful.  Image downloads, by contrast,
always perform the fetch (no existence check). -/
theorem c2_resume_skips_existing_amended (fs fetchOk : List Char → Bool)
    (nowUnix : Int) (filesPath imagesPath imageURL : List Char)
    (urls : List (List Char)) :
    (∀ url, fs (fileLocalPath nowUnix filesPath url) = true →
      downloadSingleFileSim fs fetchOk nowUnix filesPath url
        = ⟨url, fileLocalPath nowUnix filesPath url, true, false⟩)
      ∧ ((∀ u ∈ urls, fs (fileLocalPath nowUnix filesPath u) = true) →
          (downloadFilesSim fs fetchOk nowUnix filesPath urls).1.length = urls.length
            ∧ ∀ i ∈ (downloadFilesSim fs fetchOk nowUnix filesPath urls).1,
                i.success = true ∧ i.fetched = false)
      ∧ (downloadSingleImageSim fs fetchOk imagesPath imageURL).fetched = true := by
  have hsingle : ∀ url, fs (fileLocalPath nowUnix filesPath url) = true →
      downloadSingleFileSim fs fetchOk nowUnix filesPath url
        = ⟨url, fileLocalPath nowUnix filesPath url, true, false⟩ := by
    intro url h
    unfold downloadSingleFileSim
    rw [if_pos h]
  refine ⟨hsingle, ?_, ?_⟩
  · intro hall
    have hfst := downloadFilesSim_fst fs fetchOk nowUnix filesPath urls [] []
    unfold downloadFilesSim
    rw [hfst]
    constructor
    · simp
    · intro i hi
      simp only [List.nil_append, List.mem_map] at hi
      obtain ⟨u, hu, rfl⟩ := hi
      rw [hsingle u (hall u hu)]
      exact ⟨rfl, rfl⟩
  · unfold downloadSingleImageSim
    by_cases hf : fetchOk imageURL <;> simp [hf]

/-- **C2 (counterexample).** The image downloader fetches even when the
target file already exists: with a filesystem on which every path exists,
downloading `https://x.com/a.jpg` still performs a network fetch. -/
theorem c2_counterexample : ¬ claimC2ImagesSkipExisting := by
  intro h
  have hfetched :=
    (h (fun _ => true) (fun _ => true) (gs "out/images/post") (gs "https://x.com/a.jpg")
      rfl).1
  simp [downloadSingleImageSim] at hfetched

/-- Witness for the amended C2: re-running the file downloader on two URLs
whose targets all exist reports both as successful with no fetch. -/
theorem c2_resume_skips_existing_witness :
    (downloadFilesSim (fun _ => true) (fun _ => false) 0 (gs "out/files/post")
        [gs "https://x.com/a.pdf", gs "https://x.com/b.pdf"]).1.length = 2
    ∧ ∀ i ∈ (downloadFilesSim (fun _ => true) (fun _ => false) 0
          (gs "out/files/post")
          [gs "https://x.com/a.pdf", gs "https://x.com/b.pdf"]).1,
        i.success = true ∧ i.fetched = false := by
  have h := (c2_resume_skips_existing_amended (fun _ => true) (fun _ => false) 0
    (gs "out/files/post") (gs "imgs") (gs "https://x.com/a.jpg")
    [gs "https://x.com/a.pdf", gs "https://x.com/b.pdf"]).2.1
    (fun u _ => rfl)
  exact ⟨h.1, h.2⟩

/-! ## `goFields` on well-shaped entries -/

theorem goFieldsAux_nospace (a : List Char) :
    ∀ (rest acc : List Char), (∀ c ∈ a, isUniSpace c = false) →
    goFieldsAux (a ++ rest) acc = goFieldsAux rest (a.reverse ++ acc) := by
  induction a with
  | nil => intro rest acc _; simp
  | cons c a ih =>
    intro rest acc h
    have hc : isUniSpace c = false := h c (by simp)
    rw [List.cons_append, goFieldsAux, if_neg (by simp [hc])]
    rw [ih rest (c :: acc) (fun d hd => h d (by simp [hd]))]
    simp

theorem goFields_single (a : List Char) (ha : a ≠ [])
    (h : ∀ c ∈ a, isUniSpace c = false) : goFields a = [a] := by
  unfold goFields
  have := goFieldsAux_nospace a [] [] h
  rw [List.append_nil] at this
  rw [this, goFieldsAux]
  simp [ha]

theorem goFields_word_rest (a w : List Char) (ha : a ≠ [])
    (h : ∀ c ∈ a, isUniSpace c = false) :
    goFields (a ++ ' ' :: w) = a :: goFields w := by
  unfold goFields
  rw [goFieldsAux_nospace a (' ' :: w) [] h]
  rw [goFieldsAux, if_pos (by decide)]
  rw [if_neg (by simpa using ha)]
  simp [goFields]

theorem firstField_single (a : List Char) (ha : a ≠ [])
    (h : ∀ c ∈ a, isUniSpace c = false) : firstField a = some a := by
  unfold firstField
  rw [goFields_single a ha h]
  rfl

theorem firstField_word (a w : List Char) (ha : a ≠ [])
    (h : ∀ c ∈ a, isUniSpace c = false) :
    firstField (a ++ ' ' :: w) = some a := by
  unfold firstField
  rw [goFields_word_rest a w ha h]
  rfl

theorem firstField_pteNewEntry (rel : List Char) (rest : List (List Char))
    (ha : rel ≠ []) (h : ∀ c ∈ rel, isUniSpace c = false) :
    firstField (pteNewEntry rel rest) = some rel := by
  cases rest with
  | nil => exact firstField_single rel ha h
  | cons w _ => exact firstField_word rel w ha h

/-! ## Phase 1 of `updateSrcsetAttribute`: the `pathToEntry` invariants -/

/-- Every binding `(k, v)` of the built `pathToEntry` satisfies: `v`'s URL
slot is `k` itself, and `k` is not a mapped URL (it is either an unmapped
original URL, or a relative path, which by hypothesis is not mapped). -/
theorem pteStep_inv (m : SMap) (hm : MapHygiene m)
    (pte : SMap) (entry : List Char)
    (hpte : ∀ k v, SMap.lookup pte k = some v →
      firstField v = some k ∧ SMap.lookup m k = none) :
    ∀ k v, SMap.lookup (pteStep m pte entry) k = some v →
      firstField v = some k ∧ SMap.lookup m k = none := by
  intro k v hkv
  unfold pteStep at hkv
  split at hkv
  · exact hpte k v hkv
  · split at hkv
    · exact hpte k v hkv
    · rename_i url rest heq
      split at hkv
      · rename_i rel hmu
        have hrel := hm _ _ hmu
        have hnew : firstField (pteNewEntry rel rest) = some rel :=
          firstField_pteNewEntry rel rest hrel.1 hrel.2.1
        split at hkv
        · split at hkv
          · rw [SMap.lookup_set] at hkv
            split at hkv
            · rename_i hk
              cases hkv
              exact ⟨hk ▸ hnew, hk ▸ hrel.2.2.2⟩
            · exact hpte k v hkv
          · exact hpte k v hkv
        · rw [SMap.lookup_set] at hkv
          split at hkv
          · rename_i hk
            cases hkv
            exact ⟨hk ▸ hnew, hk ▸ hrel.2.2.2⟩
          · exact hpte k v hkv
      · rename_i hmu
        rw [SMap.lookup_set] at hkv
        split at hkv
        · rename_i hk
          cases hkv
          constructor
          · unfold firstField
            rw [← hk, heq]
            rfl
          · exact hk ▸ hmu
        · exact hpte k v hkv

/-- The `pathToEntry` invariant, over the whole entry list. -/
theorem srcsetPathToEntry_inv (m : SMap) (hm : MapHygiene m)
    (entries : List (List Char)) :
    ∀ k v, SMap.lookup (srcsetPathToEntry m entries) k = some v →
      firstField v = some k ∧ SMap.lookup m k = none := by
  unfold srcsetPathToEntry
  have gen : ∀ (l : List (List Char)) (pte : SMap),
      (∀ k v, SMap.lookup pte k = some v →
        firstField v = some k ∧ SMap.lookup m k = none) →
      ∀ k v, SMap.lookup (l.foldl (pteStep m) pte) k = some v →
        firstField v = some k ∧ SMap.lookup m k = none := by
    intro l
    induction l with
    | nil => intro pte hpte; simpa using hpte
    | cons e rest ih =>
      intro pte hpte
      rw [List.foldl_cons]
      exact ih (pteStep m pte e) (pteStep_inv m hm pte e hpte)
  exact gen entries [] (fun k v h => by cases h)

/-! ## Phase 2 of `updateSrcsetAttribute` -/

/-- Case analysis of one phase-2 step: either the entry yields no key, or
the key is absent from `pathToEntry` (nothing emitted), or the stored
entry is emitted once and deleted. -/
theorem rebuildStep_eq (m : SMap) (st : List (List Char) × SMap)
    (entry : List Char) :
    (rebuildKey m entry = none ∧ rebuildStep m st entry = st)
      ∨ (∃ key, rebuildKey m entry = some key ∧
          ((SMap.lookup st.2 key = none ∧ rebuildStep m st entry = st)
            ∨ (∃ fe, SMap.lookup st.2 key = some fe ∧
                rebuildStep m st entry
                  = (st.1 ++ [fe], SMap.erase st.2 key)))) := by
  by_cases h0 : trimSpace entry = []
  · left
    constructor
    · simp [rebuildKey, h0]
    · simp [rebuildStep, h0]
  · cases heq : goFields (trimSpace entry) with
    | nil =>
      left
      constructor
      · simp [rebuildKey, h0, heq]
      · simp [rebuildStep, h0, heq]
    | cons url rest =>
      cases hmu : SMap.lookup m url with
      | some rel =>
        right
        refine ⟨rel, by simp [rebuildKey, h0, heq, hmu], ?_⟩
        cases hl : SMap.lookup st.2 rel with
        | none =>
          left
          exact ⟨rfl, by simp [rebuildStep, h0, heq, hmu, hl]⟩
        | some fe =>
          right
          exact ⟨fe, rfl, by simp [rebuildStep, h0, heq, hmu, hl]⟩
      | none =>
        right
        refine ⟨url, by simp [rebuildKey, h0, heq, hmu], ?_⟩
        cases hl : SMap.lookup st.2 url with
        | none =>
          left
          exact ⟨rfl, by simp [rebuildStep, h0, heq, hmu, hl]⟩
        | some fe =>
          right
          exact ⟨fe, rfl, by simp [rebuildStep, h0, heq, hmu, hl]⟩

/-- Phase 2 only appends to the emitted list. -/
theorem srcsetRebuild_fst_prefix (m : SMap) :
    ∀ (entries : List (List Char)) (st : List (List Char) × SMap),
    ∃ l, (srcsetRebuild m entries st).1 = st.1 ++ l := by
  intro entries
  induction entries with
  | nil => intro st; exact ⟨[], by simp [srcsetRebuild]⟩
  | cons e rest ih =>
    intro st
    unfold srcsetRebuild at *
    rw [List.foldl_cons]
    rcases rebuildStep_eq m st e with ⟨_, hstep⟩ | ⟨key, _, ⟨_, hstep⟩ | ⟨fe, _, hstep⟩⟩
    · rw [hstep]; exact ih st
    · rw [hstep]; exact ih st
    · rw [hstep]
      obtain ⟨l, hl⟩ := ih (st.1 ++ [fe], SMap.erase st.2 key)
      exact ⟨[fe] ++ l, by simp [hl]⟩

/-- Phase 2 emits at most one entry per input entry. -/
theorem srcsetRebuild_length (m : SMap) :
    ∀ (entries : List (List Char)) (st : List (List Char) × SMap),
    (srcsetRebuild m entries st).1.length ≤ st.1.length + entries.length := by
  intro entries
  induction entries with
  | nil => intro st; simp [srcsetRebuild]
  | cons e rest ih =>
    intro st
    unfold srcsetRebuild at *
    rw [List.foldl_cons]
    rcases rebuildStep_eq m st e with ⟨_, hstep⟩ | ⟨key, _, ⟨_, hstep⟩ | ⟨fe, _, hstep⟩⟩
    · rw [hstep]
      calc _ ≤ st.1.length + rest.length := ih st
        _ ≤ _ := by simp
    · rw [hstep]
      calc _ ≤ st.1.length + rest.length := ih st
        _ ≤ _ := by simp
    · rw [hstep]
      calc _ ≤ (st.1 ++ [fe]).length + rest.length :=
            ih (st.1 ++ [fe], SMap.erase st.2 key)
        _ ≤ _ := by simp [List.length_append]; omega

/-- Every entry phase 2 emits comes out of `pathToEntry`: if all stored
values satisfy `P`, all emitted entries do. -/
theorem srcsetRebuild_out (m : SMap) (P : List Char → Prop) :
    ∀ (entries : List (List Char)) (st : List (List Char) × SMap),
    (∀ k v, SMap.lookup st.2 k = some v → P v) →
    (∀ fe ∈ st.1, P fe) →
    ∀ fe ∈ (srcsetRebuild m entries st).1, P fe := by
  intro entries
  induction entries with
  | nil =>
    intro st _ hacc
    simpa [srcsetRebuild] using hacc
  | cons e rest ih =>
    intro st hpte hacc
    unfold srcsetRebuild at *
    rw [List.foldl_cons]
    rcases rebuildStep_eq m st e with ⟨_, hstep⟩ | ⟨key, _, ⟨_, hstep⟩ | ⟨fe, hfe, hstep⟩⟩
    · rw [hstep]; exact ih st hpte hacc
    · rw [hstep]; exact ih st hpte hacc
    · rw [hstep]
      apply ih (st.1 ++ [fe], SMap.erase st.2 key)
      · intro k v hkv
        simp only at hkv
        rw [SMap.lookup_erase] at hkv
        split at hkv
        · cases hkv
        · exact hpte k v hkv
      · intro g hg
        rcases List.mem_append.mp hg with hg | hg
        · exact hacc g hg
        · rw [List.mem_singleton.mp hg]
          exact hpte key fe hfe

/-- An entry stored in `pathToEntry` under a key named by some input entry
is emitted by phase 2. -/
theorem srcsetRebuild_emits (m : SMap) :
    ∀ (entries : List (List Char)) (st : List (List Char) × SMap)
      (k v : List Char),
    SMap.lookup st.2 k = some v →
    (∃ e ∈ entries, rebuildKey m e = some k) →
    v ∈ (srcsetRebuild m entries st).1 := by
  intro entries
  induction entries with
  | nil =>
    intro st k v _ hwit
    obtain ⟨e, he, _⟩ := hwit
    cases he
  | cons e rest ih =>
    intro st k v hkv hwit
    unfold srcsetRebuild at *
    rw [List.foldl_cons]
    rcases rebuildStep_eq m st e with ⟨hkey, hstep⟩ | ⟨key, hkey, hcase⟩
    · rw [hstep]
      obtain ⟨e', he', hk'⟩ := hwit
      rcases List.mem_cons.mp he' with rfl | he'
      · rw [hkey] at hk'
        cases hk'
      · exact ih st k v hkv ⟨e', he', hk'⟩
    · by_cases hkk : key = k
      · subst hkk
        rcases hcase with ⟨hl, _⟩ | ⟨fe, hfe, hstep⟩
        · rw [hl] at hkv
          cases hkv
        · rw [hstep]
          have hfv : fe = v := by
            rw [hfe] at hkv
            cases hkv
            rfl
          obtain ⟨l, hpre⟩ :=
            srcsetRebuild_fst_prefix m rest (st.1 ++ [fe], SMap.erase st.2 key)
          unfold srcsetRebuild at hpre
          rw [hpre, hfv]
          simp
      · rcases hcase with ⟨_, hstep⟩ | ⟨fe, _, hstep⟩
        · rw [hstep]
          obtain ⟨e', he', hk'⟩ := hwit
          rcases List.mem_cons.mp he' with rfl | he'
          · rw [hkey] at hk'
            cases hk'
            exact absurd rfl hkk
          · exact ih st k v hkv ⟨e', he', hk'⟩
        · rw [hstep]
          obtain ⟨e', he', hk'⟩ := hwit
          rcases List.mem_cons.mp he' with rfl | he'
          · rw [hkey] at hk'
            cases hk'
            exact absurd rfl hkk
          · refine ih (st.1 ++ [fe], SMap.erase st.2 key) k v ?_ ⟨e', he', hk'⟩
            simp only
            rw [SMap.lookup_erase, if_neg hkk]
            exact hkv

/-- Phase 1 installs a binding for every entry's key. -/
theorem pteStep_isSome (m : SMap) (pte : SMap) (entry k : List Char)
    (hk : rebuildKey m entry = some k) :
    (SMap.lookup (pteStep m pte entry) k).isSome := by
  by_cases h0 : trimSpace entry = []
  · simp [rebuildKey, h0] at hk
  · cases heq : goFields (trimSpace entry) with
    | nil => simp [rebuildKey, h0, heq] at hk
    | cons url rest =>
      cases hmu : SMap.lookup m url with
      | some rel =>
        have hrel : rel = k := by simpa [rebuildKey, h0, heq, hmu] using hk
        subst hrel
        cases hl : SMap.lookup pte rel with
        | some existing =>
          have hbase : (SMap.lookup (SMap.set pte rel (pteNewEntry rel rest)) rel).isSome := by
            rw [SMap.lookup_set, if_pos rfl]
            rfl
          have hkeep : (SMap.lookup pte rel).isSome := by
            rw [hl]
            rfl
          by_cases hin : (¬ rest = [] ∧ ' ' ∉ existing)
          · simp [pteStep, h0, heq, hmu, hl, hin, hbase]
          · simp [pteStep, h0, heq, hmu, hl, hin, hkeep]
        | none => simp [pteStep, h0, heq, hmu, hl, SMap.lookup_set]
      | none =>
        have hurl : url = k := by simpa [rebuildKey, h0, heq, hmu] using hk
        subst hurl
        simp [pteStep, h0, heq, hmu, SMap.lookup_set]

/-- Phase 1 never removes a binding. -/
theorem pteStep_preserves_isSome (m : SMap) (pte : SMap) (entry k : List Char)
    (h : (SMap.lookup pte k).isSome) :
    (SMap.lookup (pteStep m pte entry) k).isSome := by
  unfold pteStep
  split
  · exact h
  · split
    · exact h
    · split
      · split
        · split
          · rw [SMap.lookup_set]
            split
            · rfl
            · exact h
          · exact h
        · rw [SMap.lookup_set]
          split
          · rfl
          · exact h
      · rw [SMap.lookup_set]
        split
        · rfl
        · exact h

/-- After phase 1, every input entry's key is bound. -/
theorem srcsetPathToEntry_isSome (m : SMap) (entries : List (List Char))
    (e : List Char) (he : e ∈ entries) (k : List Char)
    (hk : rebuildKey m e = some k) :
    (SMap.lookup (srcsetPathToEntry m entries) k).isSome := by
  unfold srcsetPathToEntry
  have gen : ∀ (l : List (List Char)) (pte : SMap),
      (e ∈ l ∨ (SMap.lookup pte k).isSome) →
      (SMap.lookup (l.foldl (pteStep m) pte) k).isSome := by
    intro l
    induction l with
    | nil =>
      intro pte h
      rcases h with h | h
      · cases h
      · simpa using h
    | cons x rest ih =>
      intro pte h
      rw [List.foldl_cons]
      rcases h with h | h
      · rcases List.mem_cons.mp h with rfl | h
        · exact ih (pteStep m pte e) (Or.inr (pteStep_isSome m pte e k hk))
        · exact ih (pteStep m pte x) (Or.inl h)
      · exact ih (pteStep m pte x) (Or.inr (pteStep_preserves_isSome m pte x k h))
  exact gen entries [] (Or.inl he)

theorem isDigitChar_not_space (c : Char) (h : isDigitChar c = true) :
    isUniSpace c = false := by
  cases hb : isUniSpace c with
  | false => rfl
  | true =>
    exfalso
    unfold isUniSpace at hb
    simp only [Bool.or_eq_true, decide_eq_true_eq] at hb
    unfold isDigitChar at h
    simp only [Bool.and_eq_true, decide_eq_true_eq] at h
    rcases hb with ((((rfl | rfl) | rfl) | rfl) | rfl) | rfl <;>
      exact absurd h (by decide)

/-- The width slot of a canonical entry is whitespace-free. -/
theorem widthSlot_nospace (d : List Char) (hd : d.all isDigitChar = true) :
    ∀ c ∈ d ++ ['w'], isUniSpace c = false := by
  intro c hc
  rcases List.mem_append.mp hc with hc | hc
  · exact isDigitChar_not_space c (List.all_eq_true.mp hd c hc)
  · rw [List.mem_singleton.mp hc]
    decide

/-- `goFields` of a canonical entry. -/
theorem goFields_entryShape (u d : List Char) (hu : u ≠ [])
    (hnu : ∀ c ∈ u, isUniSpace c = false) (hd : d.all isDigitChar = true) :
    goFields (u ++ ' ' :: (d ++ ['w'])) = [u, d ++ ['w']] := by
  rw [goFields_word_rest u (d ++ ['w']) hu hnu]
  rw [goFields_single (d ++ ['w']) (by simp) (widthSlot_nospace d hd)]

/-- A canonical entry is already trimmed. -/
theorem trimSpace_entryShape (u d : List Char) (hu : u ≠ [])
    (hnu : ∀ c ∈ u, isUniSpace c = false) :
    trimSpace (u ++ ' ' :: (d ++ ['w'])) = u ++ ' ' :: (d ++ ['w']) := by
  unfold trimSpace
  have hhead : (u ++ ' ' :: (d ++ ['w'])).dropWhile isUniSpace
      = u ++ ' ' :: (d ++ ['w']) := by
    cases u with
    | nil => exact absurd rfl hu
    | cons c u' =>
      have hc : isUniSpace c = false := hnu c (by simp)
      simp [List.dropWhile, hc]
  rw [hhead]
  have htail : (u ++ ' ' :: (d ++ ['w'])).reverse.dropWhile isUniSpace
      = (u ++ ' ' :: (d ++ ['w'])).reverse := by
    have hrev : (u ++ ' ' :: (d ++ ['w'])).reverse
        = 'w' :: (d.reverse ++ ' ' :: u.reverse) := by
      simp
    rw [hrev, List.dropWhile_cons, if_neg (by decide)]
  rw [htail, List.reverse_reverse]

/-- Phase-1 provenance: every stored `pathToEntry` value is an original
entry, or a mapped original entry with its URL replaced and width kept. -/
theorem pteStep_prov (m : SMap) (E : List (List Char))
    (hE : ∀ e ∈ E, EntryShape e) (pte : SMap) (entry : List Char)
    (hentry : entry ∈ E)
    (hpte : ∀ k v, SMap.lookup pte k = some v → ProvEntry m E v) :
    ∀ k v, SMap.lookup (pteStep m pte entry) k = some v → ProvEntry m E v := by
  intro k v hkv
  obtain ⟨u, d, hsh, hu, hnu, _, hdne, hd⟩ := hE entry hentry
  have htrim : trimSpace entry = entry := by
    rw [hsh]
    exact trimSpace_entryShape u d hu hnu
  have hgf : goFields (trimSpace entry) = [u, d ++ ['w']] := by
    rw [htrim, hsh]
    exact goFields_entryShape u d hu hnu hd
  unfold pteStep at hkv
  rw [htrim] at hkv
  rw [htrim] at hgf
  split at hkv
  · exact hpte k v hkv
  · rw [hgf] at hkv
    split at hkv
    · rename_i habs
      cases habs
    · rename_i url rest heq
      have hul : url = u ∧ rest = [d ++ ['w']] := by
        have := heq
        injection this with h1 h2
        exact ⟨h1.symm, h2.symm⟩
      obtain ⟨hu1, hu2⟩ := hul
      rw [hu1, hu2] at hkv
      split at hkv
      · rename_i rel hmu
        have hnewProv : ProvEntry m E (pteNewEntry rel [d ++ ['w']]) := by
          right
          exact ⟨u, d, rel, hsh ▸ hentry, hmu, rfl, hdne, hd⟩
        split at hkv
        · split at hkv
          · rw [SMap.lookup_set] at hkv
            split at hkv
            · cases hkv
              exact hnewProv
            · exact hpte k v hkv
          · exact hpte k v hkv
        · rw [SMap.lookup_set] at hkv
          split at hkv
          · cases hkv
            exact hnewProv
          · exact hpte k v hkv
      · rw [SMap.lookup_set] at hkv
        split at hkv
        · cases hkv
          exact Or.inl (htrim ▸ hentry)
        · exact hpte k v hkv

/-- Phase-1 provenance over the whole entry list. -/
theorem srcsetPathToEntry_prov (m : SMap) (E : List (List Char))
    (hE : ∀ e ∈ E, EntryShape e) :
    ∀ k v, SMap.lookup (srcsetPathToEntry m E) k = some v → ProvEntry m E v := by
  unfold srcsetPathToEntry
  have gen : ∀ (l : List (List Char)), (∀ e ∈ l, e ∈ E) → ∀ (pte : SMap),
      (∀ k v, SMap.lookup pte k = some v → ProvEntry m E v) →
      ∀ k v, SMap.lookup (l.foldl (pteStep m) pte) k = some v → ProvEntry m E v := by
    intro l
    induction l with
    | nil =>
      intro _ pte hpte
      simpa using hpte
    | cons e rest ih =>
      intro hsub pte hpte
      rw [List.foldl_cons]
      exact ih (fun x hx => hsub x (by simp [hx])) (pteStep m pte e)
        (pteStep_prov m E hE pte e (hsub e (by simp)) hpte)
  exact gen E (fun e he => he) [] (fun k v h => by cases h)

/-- Phase 2 keeps the emitted URL slots pairwise distinct: entries that
collapse onto one key yield at most one output entry. -/
theorem srcsetRebuild_nodup (m : SMap) :
    ∀ (entries : List (List Char)) (st : List (List Char) × SMap),
    (∀ k v, SMap.lookup st.2 k = some v → firstField v = some k) →
    ((st.1.map firstField).Nodup) →
    (∀ fe ∈ st.1, ∀ k, firstField fe = some k → SMap.lookup st.2 k = none) →
    ((srcsetRebuild m entries st).1.map firstField).Nodup := by
  intro entries
  induction entries with
  | nil =>
    intro st _ h2 _
    simpa [srcsetRebuild] using h2
  | cons e rest ih =>
    intro st h1 h2 h3
    unfold srcsetRebuild at *
    rw [List.foldl_cons]
    rcases rebuildStep_eq m st e with ⟨_, hstep⟩ | ⟨key, _, ⟨_, hstep⟩ | ⟨fe, hfe, hstep⟩⟩
    · rw [hstep]; exact ih st h1 h2 h3
    · rw [hstep]; exact ih st h1 h2 h3
    · rw [hstep]
      have hffe : firstField fe = some key := h1 key fe hfe
      apply ih (st.1 ++ [fe], SMap.erase st.2 key)
      · intro k v hkv
        simp only at hkv
        rw [SMap.lookup_erase] at hkv
        split at hkv
        · cases hkv
        · exact h1 k v hkv
      · simp only [List.map_append, List.map_cons, List.map_nil]
        rw [List.nodup_append]
        refine ⟨h2, by simp, ?_⟩
        intro o ho ho'
        have ho2 : o = firstField fe := List.mem_singleton.mp ho'
        obtain ⟨g, hg, hgo⟩ := List.mem_map.mp ho
        rw [ho2, hffe] at hgo
        have := h3 g hg key hgo
        rw [this] at hfe
        cases hfe
      · intro g hg k hk
        simp only
        rw [SMap.lookup_erase]
        split
        · rfl
        · rcases List.mem_append.mp hg with hg | hg
          · exact h3 g hg k hk
          · rw [List.mem_singleton.mp hg] at hk
            rw [hffe] at hk
            cases hk
            rename_i hne
            exact absurd rfl hne

/-- `rebuildKey` on a canonically shaped entry. -/
theorem rebuildKey_entryShape (m : SMap) (u d : List Char) (hu : u ≠ [])
    (hnu : ∀ c ∈ u, isUniSpace c = false) (hd : d.all isDigitChar = true) :
    rebuildKey m (u ++ ' ' :: (d ++ ['w']))
      = some (match SMap.lookup m u with
              | some rel => rel
              | none => u) := by
  unfold rebuildKey
  rw [trimSpace_entryShape u d hu hnu]
  rw [if_neg (by cases u with | nil => exact absurd rfl hu | cons _ _ => simp)]
  rw [goFields_entryShape u d hu hnu hd]

/-- **C7.** For a srcset whose parsed entries are canonical `URL WIDTHw`
entries and a hygienic URL→path map: the rewritten attribute is the
rewritten entries joined by `", "`; there are at most as many rewritten
entries as parsed entries; every rewritten entry is an original entry kept
byte-identical or an original entry with its mapped URL replaced by the
relative path and the width descriptor preserved (so each is syntactically
`path WIDTHw`); entries collapsing onto one URL slot are deduplicated; and
every original URL — unmapped kept, mapped replaced — is still represented
exactly once. -/
theorem c7_srcset_round_trip (s : List Char) (m : SMap) (hm : MapHygiene m)
    (hE : ∀ e ∈ parseSrcsetEntries s, EntryShape e) :
    (updateSrcsetEntryList s m).length ≤ (parseSrcsetEntries s).length
      ∧ (s ≠ [] → updateSrcsetAttribute s m
          = List.intercalate (gs ", ") (updateSrcsetEntryList s m))
      ∧ (∀ fe ∈ updateSrcsetEntryList s m, ProvEntry m (parseSrcsetEntries s) fe)
      ∧ (∀ fe ∈ updateSrcsetEntryList s m,
          ∃ a d, fe = a ++ ' ' :: (d ++ ['w']) ∧ a ≠ []
            ∧ (∀ c ∈ a, isUniSpace c = false)
            ∧ d ≠ [] ∧ d.all isDigitChar = true)
      ∧ ((updateSrcsetEntryList s m).map firstField).Nodup
      ∧ (∀ e ∈ parseSrcsetEntries s, ∀ u, firstField e = some u →
          SMap.lookup m u = none →
          ∃ fe ∈ updateSrcsetEntryList s m, firstField fe = some u)
      ∧ (∀ e ∈ parseSrcsetEntries s, ∀ u rel, firstField e = some u →
          SMap.lookup m u = some rel →
          ∃ fe ∈ updateSrcsetEntryList s m, firstField fe = some rel) := by
  have hinv := srcsetPathToEntry_inv m hm (parseSrcsetEntries s)
  have hprov := srcsetPathToEntry_prov m (parseSrcsetEntries s) hE
  have hout : ∀ fe ∈ updateSrcsetEntryList s m,
      ProvEntry m (parseSrcsetEntries s) fe := by
    unfold updateSrcsetEntryList
    exact srcsetRebuild_out m (ProvEntry m (parseSrcsetEntries s))
      (parseSrcsetEntries s) ([], srcsetPathToEntry m (parseSrcsetEntries s))
      (fun k v h => hprov k v h) (fun fe h => by cases h)
  have hshape : ∀ fe ∈ updateSrcsetEntryList s m,
      ∃ a d, fe = a ++ ' ' :: (d ++ ['w']) ∧ a ≠ []
        ∧ (∀ c ∈ a, isUniSpace c = false)
        ∧ d ≠ [] ∧ d.all isDigitChar = true := by
    intro fe hfe
    rcases hout fe hfe with hin | ⟨u, d, rel, _, hmu, hfeEq, hdne, hd⟩
    · obtain ⟨u, d, hsh, hu, hnu, _, hdne, hd⟩ := hE fe hin
      exact ⟨u, d, hsh, hu, hnu, hdne, hd⟩
    · have hrel := hm _ _ hmu
      exact ⟨rel, d, hfeEq, hrel.1, hrel.2.1, hdne, hd⟩
  have hemit : ∀ e ∈ parseSrcsetEntries s,
      ∀ key, rebuildKey m e = some key →
      ∃ fe ∈ updateSrcsetEntryList s m, firstField fe = some key := by
    intro e hin key hkey
    have hsome := srcsetPathToEntry_isSome m (parseSrcsetEntries s) e hin key hkey
    obtain ⟨v, hv⟩ := Option.isSome_iff_exists.mp hsome
    refine ⟨v, ?_, (hinv key v hv).1⟩
    unfold updateSrcsetEntryList
    exact srcsetRebuild_emits m (parseSrcsetEntries s)
      ([], srcsetPathToEntry m (parseSrcsetEntries s)) key v hv
      ⟨e, hin, hkey⟩
  have hkeyOf : ∀ e ∈ parseSrcsetEntries s, ∀ u, firstField e = some u →
      rebuildKey m e = some (match SMap.lookup m u with
                             | some rel => rel
                             | none => u) := by
    intro e hin u hff
    obtain ⟨u', d', hsh, hu, hnu, _, _, hd⟩ := hE e hin
    have hff' : firstField e = some u' := by
      rw [hsh]
      unfold firstField
      rw [goFields_entryShape u' d' hu hnu hd]
      rfl
    have huu : u' = u := by
      rw [hff'] at hff
      injection hff
    subst huu
    rw [hsh]
    exact rebuildKey_entryShape m u' d' hu hnu hd
  refine ⟨?_, ?_, hout, hshape, ?_, ?_, ?_⟩
  · have := srcsetRebuild_length m (parseSrcsetEntries s)
      ([], srcsetPathToEntry m (parseSrcsetEntries s))
    simpa [updateSrcsetEntryList] using this
  · intro hs
    unfold updateSrcsetAttribute
    rw [if_neg hs]
  · unfold updateSrcsetEntryList
    exact srcsetRebuild_nodup m (parseSrcsetEntries s)
      ([], srcsetPathToEntry m (parseSrcsetEntries s))
      (fun k v h => (hinv k v h).1) (by simp) (fun fe h => by cases h)
  · intro e hin u hff hmu
    have hkey := hkeyOf e hin u hff
    rw [hmu] at hkey
    exact hemit e hin u hkey
  · intro e hin u rel hff hmu
    have hkey := hkeyOf e hin u hff
    rw [hmu] at hkey
    exact hemit e hin rel hkey

/-- Witness for C7 on a concrete two-entry srcset, both URLs mapped to
distinct local paths. -/
theorem c7_srcset_round_trip_witness :
    (updateSrcsetEntryList (gs "https://a.com/x 424w, https://a.com/y 848w")
        [(gs "https://a.com/x", gs "images/p/x.jpg"),
          (gs "https://a.com/y", gs "images/p/y.jpg")]).length
        ≤ (parseSrcsetEntries (gs "https://a.com/x 424w, https://a.com/y 848w")).length
      ∧ ((updateSrcsetEntryList (gs "https://a.com/x 424w, https://a.com/y 848w")
          [(gs "https://a.com/x", gs "images/p/x.jpg"),
            (gs "https://a.com/y", gs "images/p/y.jpg")]).map firstField).Nodup
      ∧ updateSrcsetAttribute (gs "https://a.com/x 424w, https://a.com/y 848w")
          [(gs "https://a.com/x", gs "images/p/x.jpg"),
            (gs "https://a.com/y", gs "images/p/y.jpg")]
        = List.intercalate (gs ", ")
            (updateSrcsetEntryList (gs "https://a.com/x 424w, https://a.com/y 848w")
              [(gs "https://a.com/x", gs "images/p/x.jpg"),
                (gs "https://a.com/y", gs "images/p/y.jpg")]) := by
  have hm : MapHygiene
      [(gs "https://a.com/x", gs "images/p/x.jpg"),
        (gs "https://a.com/y", gs "images/p/y.jpg")] := by
    intro k v h
    simp only [SMap.lookup] at h
    split at h
    · cases h
      exact ⟨by decide, by decide, by decide, by decide⟩
    · split at h
      · cases h
        exact ⟨by decide, by decide, by decide, by decide⟩
      · cases h
  have hE : ∀ e ∈ parseSrcsetEntries (gs "https://a.com/x 424w, https://a.com/y 848w"),
      EntryShape e := by
    intro e he
    have hent : parseSrcsetEntries (gs "https://a.com/x 424w, https://a.com/y 848w")
        = [gs "https://a.com/x 424w", gs "https://a.com/y 848w"] := by decide
    rw [hent] at he
    rcases List.mem_cons.mp he with rfl | he
    · exact ⟨gs "https://a.com/x", gs "424", by decide, by decide, by decide,
        by decide, by decide, by decide⟩
    · rcases List.mem_cons.mp he with rfl | he
      · exact ⟨gs "https://a.com/y", gs "848", by decide, by decide, by decide,
          by decide, by decide, by decide⟩
      · cases he
  have h := c7_srcset_round_trip (gs "https://a.com/x 424w, https://a.com/y 848w")
    [(gs "https://a.com/x", gs "images/p/x.jpg"),
      (gs "https://a.com/y", gs "images/p/y.jpg")] hm hE
  exact ⟨h.1, h.2.2.2.2.1, h.2.1 (by decide)⟩

/-- `extractURLFromSrcset` is the best-width fold over the entry
candidates. -/
theorem extractURLFromSrcset_eq_fold (s : List Char) (t : Int) :
    extractURLFromSrcset s t
      = ((srcsetCandidates s).foldl (srcsetBestStep t) ([], 0)).1 := by
  have key : ∀ (l : List (List Char)) (st : List Char × Int),
      l.foldl (fun b entry =>
          match entryCandidate entry with
          | some c => srcsetBestStep t b c
          | none => b) st
        = (l.filterMap entryCandidate).foldl (srcsetBestStep t) st := by
    intro l
    induction l with
    | nil => intro st; rfl
    | cons e l ih =>
      intro st
      cases he : entryCandidate e <;>
        simp [List.foldl_cons, List.filterMap_cons, he, ih]
  unfold extractURLFromSrcset srcsetCandidates
  rw [key]

theorem widthBetter_self (t a : Int) : widthBetter t a a := by
  unfold widthBetter
  omega

/-- A successful entry parse carries a non-empty http(s) URL. -/
theorem entryCandidate_props (entry : List Char) (p : List Char × Int)
    (he : entryCandidate entry = some p) : p.1 ≠ [] ∧ isHTTPURL p.1 = true := by
  unfold entryCandidate at he
  split at he
  · cases he
  · split at he
    · split at he
      · rename_i hcond
        split at he
        · cases he
          exact ⟨hcond.1, hcond.2⟩
        · cases he
      · cases he
    · cases he

/-- Every candidate carries a non-empty (http-prefixed) URL. -/
theorem srcsetCandidates_url_ne_nil (s : List Char) :
    ∀ p ∈ srcsetCandidates s, p.1 ≠ [] := by
  intro p hp
  unfold srcsetCandidates at hp
  obtain ⟨entry, _, he⟩ := List.mem_filterMap.mp hp
  exact (entryCandidate_props entry p he).1

/-- The best-width fold invariant: starting from a state that is optimal
for the candidates already seen, the fold ends in a state that is optimal
for all candidates. -/
theorem foldl_bestStep_opt (t : Int) (C : List (List Char × Int)) :
    ∀ (done : List (List Char × Int)) (st : List Char × Int),
    (∀ p ∈ C, p.1 ≠ []) →
    ((st.1 = [] ∧ st.2 = 0 ∧ done = [])
      ∨ (st ∈ done ∧ st.1 ≠ [] ∧ ∀ p ∈ done, widthBetter t st.2 p.2)) →
    ((C.foldl (srcsetBestStep t) st).1 = [] ∧ (C.foldl (srcsetBestStep t) st).2 = 0
        ∧ done ++ C = [])
      ∨ ((C.foldl (srcsetBestStep t) st) ∈ done ++ C
          ∧ (C.foldl (srcsetBestStep t) st).1 ≠ []
          ∧ ∀ p ∈ done ++ C, widthBetter t (C.foldl (srcsetBestStep t) st).2 p.2) := by
  induction C with
  | nil =>
    intro done st _ hinv
    simpa using hinv
  | cons c C ih =>
    intro done st hne hinv
    have hc1 : c.1 ≠ [] := hne c (by simp)
    have hstep :
        ((srcsetBestStep t st c).1 = [] ∧ (srcsetBestStep t st c).2 = 0
            ∧ done ++ [c] = [])
          ∨ ((srcsetBestStep t st c) ∈ done ++ [c] ∧ (srcsetBestStep t st c).1 ≠ []
              ∧ ∀ p ∈ done ++ [c], widthBetter t (srcsetBestStep t st c).2 p.2) := by
      unfold srcsetBestStep
      by_cases h : c.2 = t ∨ (st.1 = [] ∨
          (c.2 ≥ t ∧ (st.2 < t ∨ c.2 < st.2)) ∨ (c.2 < t ∧ st.2 < t ∧ c.2 > st.2))
      · rw [if_pos h]
        right
        refine ⟨by simp, hc1, ?_⟩
        intro p hp
        rcases List.mem_append.mp hp with hp | hp
        · rcases hinv with ⟨_, _, hdone⟩ | ⟨hmem, hne', hopt⟩
          · rw [hdone] at hp
            cases hp
          · have hbp := hopt p hp
            unfold widthBetter at *
            rcases h with h | h | h | h
            · omega
            · exact absurd h hne'
            · omega
            · omega
        · rw [List.mem_singleton.mp hp]
          exact widthBetter_self t c.2
      · rw [if_neg h]
        have hne2 : st.1 ≠ [] := fun hh => h (Or.inr (Or.inl hh))
        have h0 : ¬ (c.2 = t) := fun hh => h (Or.inl hh)
        have h3 : ¬ (c.2 ≥ t ∧ (st.2 < t ∨ c.2 < st.2)) := fun hh =>
          h (Or.inr (Or.inr (Or.inl hh)))
        have h4 : ¬ (c.2 < t ∧ st.2 < t ∧ c.2 > st.2) := fun hh =>
          h (Or.inr (Or.inr (Or.inr hh)))
        rcases hinv with ⟨h1, _, _⟩ | ⟨hmem, hne', hopt⟩
        · exact absurd h1 hne2
        · right
          refine ⟨List.mem_append.mpr (Or.inl hmem), hne', ?_⟩
          intro p hp
          rcases List.mem_append.mp hp with hp | hp
          · exact hopt p hp
          · rw [List.mem_singleton.mp hp]
            unfold widthBetter
            omega
    have := ih (done ++ [c]) (srcsetBestStep t st c)
      (fun p hp => hne p (by simp [hp])) hstep
    simpa [List.foldl_cons, List.append_assoc] using this

/-- **C6.** `getBestImageURL` follows the strict priority order
data-attrs `src` → srcset best-width entry → plain `src`, where the srcset
choice is the candidate whose width is closest to the quality-derived
target (preferring equal-or-greater widths), and an `<img>` yielding none
of these produces no asset group. -/
theorem c6_best_image_url (img : ImgEl) (quality : List Char) (ss : List Char)
    (pre post : List ImgEl) :
    (∀ s, dataAttrsBest img = some s →
        getBestImageURL img (getTargetWidth quality) = s)
      ∧ (dataAttrsBest img = none → img.srcset = some ss →
          extractURLFromSrcset ss (getTargetWidth quality) ≠ [] →
          getBestImageURL img (getTargetWidth quality)
            = extractURLFromSrcset ss (getTargetWidth quality))
      ∧ (dataAttrsBest img = none →
          (img.srcset = none
            ∨ (img.srcset = some ss
                ∧ extractURLFromSrcset ss (getTargetWidth quality) = [])) →
          getBestImageURL img (getTargetWidth quality)
            = (match img.src with | some s => s | none => []))
      ∧ (srcsetCandidates ss = [] →
          extractURLFromSrcset ss (getTargetWidth quality) = [])
      ∧ (srcsetCandidates ss ≠ [] →
          extractURLFromSrcset ss (getTargetWidth quality) ≠ []
            ∧ ∃ n, (extractURLFromSrcset ss (getTargetWidth quality), n)
                  ∈ srcsetCandidates ss
              ∧ ∀ p ∈ srcsetCandidates ss,
                  widthBetter (getTargetWidth quality) n p.2)
      ∧ (getBestImageURL img (getTargetWidth quality) = [] →
          extractImageElementsImgs (pre ++ img :: post) (getTargetWidth quality)
            = extractImageElementsImgs (pre ++ post) (getTargetWidth quality)) := by
  have hopt := foldl_bestStep_opt (getTargetWidth quality) (srcsetCandidates ss)
    [] ([], 0) (srcsetCandidates_url_ne_nil ss) (Or.inl ⟨rfl, rfl, rfl⟩)
  refine ⟨?_, ?_, ?_, ?_, ?_, ?_⟩
  · intro s hs
    unfold getBestImageURL
    rw [hs]
  · intro hda hss hne
    unfold getBestImageURL
    rw [hda, hss]
    simp only
    rw [if_pos hne]
  · intro hda hsrc
    unfold getBestImageURL
    rw [hda]
    rcases hsrc with h | ⟨h, hempty⟩
    · rw [h]
      simp
    · rw [h]
      simp only [hempty]
      simp
  · intro hC
    rw [extractURLFromSrcset_eq_fold, hC]
    rfl
  · intro hC
    rw [extractURLFromSrcset_eq_fold]
    rcases hopt with ⟨_, _, habs⟩ | ⟨hmem, hne, hoptAll⟩
    · exact absurd (by simpa using habs) hC
    · exact ⟨hne, ((srcsetCandidates ss).foldl
        (srcsetBestStep (getTargetWidth quality)) ([], 0)).2,
        by simpa using hmem, fun p hp => hoptAll p (by simpa using hp)⟩
  · intro hbest
    unfold extractImageElementsImgs
    rw [List.foldl_append, List.foldl_append, List.foldl_cons]
    have hmid : ∀ (st : List ImageElement × List (List Char)),
        imgScanStep (getTargetWidth quality) st img = st := by
      intro st
      unfold imgScanStep
      have hb : (getImageElementInfo img (getTargetWidth quality)).bestURL = [] :=
        hbest
      simp [hb]
    rw [hmid]

/-- Witness for C6: an img with no `data-attrs` and a two-entry srcset at
medium quality takes the srcset candidate, which is width-optimal among
the candidates. -/
theorem c6_best_image_url_witness :
    getBestImageURL
        ⟨some (gs "https://a.com/z.jpg"),
          some (gs "https://a.com/x 424w, https://a.com/y 848w"), none⟩
        (getTargetWidth (gs "medium"))
      = extractURLFromSrcset (gs "https://a.com/x 424w, https://a.com/y 848w")
          (getTargetWidth (gs "medium"))
    ∧ ∃ n, (extractURLFromSrcset (gs "https://a.com/x 424w, https://a.com/y 848w")
            (getTargetWidth (gs "medium")), n)
          ∈ srcsetCandidates (gs "https://a.com/x 424w, https://a.com/y 848w")
        ∧ ∀ p ∈ srcsetCandidates (gs "https://a.com/x 424w, https://a.com/y 848w"),
            widthBetter (getTargetWidth (gs "medium")) n p.2 := by
  have h := c6_best_image_url
    ⟨some (gs "https://a.com/z.jpg"),
      some (gs "https://a.com/x 424w, https://a.com/y 848w"), none⟩
    (gs "medium") (gs "https://a.com/x 424w, https://a.com/y 848w") [] []
  exact ⟨h.2.1 rfl rfl (by decide), (h.2.2.2.2.1 (by decide)).2⟩

/-! ## URL→path map construction (`DownloadImages` / `DownloadFiles`) -/

/-- Looking up after mapping a whole URL group to one path. -/
theorem setfold_lookup (p : List Char) (l : List (List Char)) (m : SMap)
    (u : List Char) :
    SMap.lookup (l.foldl (fun m x => SMap.set m x p) m) u
      = if u ∈ l then some p else SMap.lookup m u := by
  induction l generalizing m with
  | nil => simp
  | cons x l ih =>
    rw [List.foldl_cons, ih]
    by_cases hul : u ∈ l
    · simp [hul]
    · by_cases hux : u = x
      · simp [hul, hux, SMap.lookup_set]
      · have hxu : ¬ x = u := fun h => hux h.symm
        simp [hul, hux, SMap.lookup_set, hxu]

/-- URLs whose every containing group failed are never entered into the
image URL→path map. -/
theorem downloadImagesSim_unmapped (fs fetchOk : List Char → Bool)
    (imagesPath : List Char) (elems : List ImageElement) (u : List Char)
    (h : ∀ e ∈ elems, u ∈ e.allURLs →
      (downloadSingleImageSim fs fetchOk imagesPath e.bestURL).success = false) :
    SMap.lookup (downloadImagesSim fs fetchOk imagesPath elems).2 u = none := by
  unfold downloadImagesSim
  have gen : ∀ (l : List ImageElement) (st : List AssetInfoSim × SMap),
      (∀ e ∈ l, u ∈ e.allURLs →
        (downloadSingleImageSim fs fetchOk imagesPath e.bestURL).success = false) →
      SMap.lookup st.2 u = none →
      SMap.lookup (l.foldl (imagesDLStep fs fetchOk imagesPath) st).2 u = none := by
    intro l
    induction l with
    | nil => intro st _ hst; simpa using hst
    | cons e rest ih =>
      intro st hl hst
      rw [List.foldl_cons]
      apply ih (imagesDLStep fs fetchOk imagesPath st e)
        (fun x hx hu => hl x (by simp [hx]) hu)
      unfold imagesDLStep
      simp only
      cases hsucc : (downloadSingleImageSim fs fetchOk imagesPath e.bestURL).success with
      | false => simpa [hsucc] using hst
      | true =>
        have hnotin : u ∉ e.allURLs := by
          intro hu
          have := hl e (by simp) hu
          rw [hsucc] at this
          cases this
        rw [if_pos rfl, setfold_lookup, if_neg hnotin]
        exact hst
  exact gen elems ([], []) h rfl

/-- URLs whose download failed are never entered into the file URL→path
map. -/
theorem downloadFilesSim_unmapped (fs fetchOk : List Char → Bool)
    (nowUnix : Int) (filesPath : List Char) (urls : List (List Char))
    (u : List Char)
    (h : (downloadSingleFileSim fs fetchOk nowUnix filesPath u).success = false) :
    SMap.lookup (downloadFilesSim fs fetchOk nowUnix filesPath urls).2 u = none := by
  unfold downloadFilesSim
  have gen : ∀ (l : List (List Char)) (st : List AssetInfoSim × SMap),
      SMap.lookup st.2 u = none →
      SMap.lookup (l.foldl (filesDLStep fs fetchOk nowUnix filesPath) st).2 u
        = none := by
    intro l
    induction l with
    | nil => intro st hst; simpa using hst
    | cons x rest ih =>
      intro st hst
      rw [List.foldl_cons]
      apply ih
      unfold filesDLStep
      simp only
      by_cases hxu : x = u
      · subst hxu
        rw [if_neg (by rw [h]; exact Bool.false_ne_true)]
        exact hst
      · split
        · rw [SMap.lookup_set, if_neg hxu]
          exact hst
        · exact hst
  exact gen urls ([], []) rfl

/-- With successful groups that only share variants when they share the
best URL, every variant of a successful group maps to that group's own
local path. -/
theorem downloadImagesSim_consistent (fs fetchOk : List Char → Bool)
    (imagesPath : List Char) (elems : List ImageElement)
    (hdisj : ∀ e1 ∈ elems, ∀ e2 ∈ elems,
      (downloadSingleImageSim fs fetchOk imagesPath e1.bestURL).success = true →
      (downloadSingleImageSim fs fetchOk imagesPath e2.bestURL).success = true →
      ∀ u, u ∈ e1.allURLs → u ∈ e2.allURLs → e1.bestURL = e2.bestURL) :
    ∀ e ∈ elems,
      (downloadSingleImageSim fs fetchOk imagesPath e.bestURL).success = true →
      ∀ u ∈ e.allURLs,
        SMap.lookup (downloadImagesSim fs fetchOk imagesPath elems).2 u
          = some (imageLocalPath imagesPath e.bestURL) := by
  intro e he hsucc u hu
  obtain ⟨pre, post, rfl⟩ := List.append_of_mem he
  unfold downloadImagesSim
  rw [List.foldl_append, List.foldl_cons]
  have hlocal : (downloadSingleImageSim fs fetchOk imagesPath e.bestURL).localPath
      = imageLocalPath imagesPath e.bestURL := by
    unfold downloadSingleImageSim
    split <;> rfl
  have hafter : ∀ (st : List AssetInfoSim × SMap),
      SMap.lookup (imagesDLStep fs fetchOk imagesPath st e).2 u
        = some (imageLocalPath imagesPath e.bestURL) := by
    intro st
    unfold imagesDLStep
    simp only
    rw [if_pos hsucc, setfold_lookup, if_pos hu, hlocal]
  have hpost : ∀ (l : List ImageElement) (st : List AssetInfoSim × SMap),
      (∀ e2 ∈ l, (downloadSingleImageSim fs fetchOk imagesPath e2.bestURL).success = true →
        u ∈ e2.allURLs → e.bestURL = e2.bestURL) →
      SMap.lookup st.2 u = some (imageLocalPath imagesPath e.bestURL) →
      SMap.lookup (l.foldl (imagesDLStep fs fetchOk imagesPath) st).2 u
        = some (imageLocalPath imagesPath e.bestURL) := by
    intro l
    induction l with
    | nil => intro st _ hst; simpa using hst
    | cons e2 rest ih =>
      intro st hl hst
      rw [List.foldl_cons]
      apply ih (imagesDLStep fs fetchOk imagesPath st e2)
        (fun x hx => hl x (by simp [hx]))
      unfold imagesDLStep
      simp only
      cases hsucc2 : (downloadSingleImageSim fs fetchOk imagesPath e2.bestURL).success with
      | false => simpa [hsucc2] using hst
      | true =>
        rw [if_pos rfl, setfold_lookup]
        by_cases hu2 : u ∈ e2.allURLs
        · have hbe : e.bestURL = e2.bestURL :=
            hl e2 (by simp) hsucc2 hu2
          have hl2 : (downloadSingleImageSim fs fetchOk imagesPath e2.bestURL).localPath
              = imageLocalPath imagesPath e2.bestURL := by
            unfold downloadSingleImageSim
            split <;> rfl
          rw [if_pos hu2, hl2, ← hbe]
        · rw [if_neg hu2]
          exact hst
  apply hpost post _ (fun e2 he2 hs2 hu2 =>
    hdisj e (by simp) e2 (by simp [he2]) hsucc hs2 u hu hu2)
  exact hafter _

/-- **C10 (amended).** Failed groups contribute nothing to the URL→path
maps (images and files), and rewriting never touches unmapped URLs in the
plain-attribute positions: an unmapped `src`/`href` value and an unmapped
`data-attrs` `src` member are byte-for-byte unchanged, unparseable
`data-attrs` JSON is returned verbatim, and every rewritten srcset entry
is either an original entry kept byte-identical or a mapped original with
only its URL replaced.  (Srcset attributes themselves are re-normalized —
re-joined with `", "` and deduplicated — even when nothing in them is
mapped; that is the part of the claim the counterexample refutes.) -/
theorem c10_frame_property (fs fetchOk : List Char → Bool) (nowUnix : Int)
    (imagesPath filesPath : List Char) (elems : List ImageElement)
    (urls : List (List Char)) (m : SMap) (u s ss fu : List Char) :
    ((∀ e ∈ elems, u ∈ e.allURLs →
        (downloadSingleImageSim fs fetchOk imagesPath e.bestURL).success = false) →
      SMap.lookup (downloadImagesSim fs fetchOk imagesPath elems).2 u = none)
      ∧ ((downloadSingleFileSim fs fetchOk nowUnix filesPath fu).success = false →
          SMap.lookup (downloadFilesSim fs fetchOk nowUnix filesPath urls).2 fu
            = none)
      ∧ (SMap.lookup m s = none → updateURLAttr m (some s) = some s)
      ∧ (∀ raw, updateDataAttrsJSON (.unparseable raw) m = .unparseable raw)
      ∧ (∀ others, SMap.lookup m s = none →
          updateDataAttrsJSON (.obj (some s) others) m = .obj (some s) others)
      ∧ ((∀ e ∈ parseSrcsetEntries ss, EntryShape e) →
          ∀ fe ∈ updateSrcsetEntryList ss m,
            ProvEntry m (parseSrcsetEntries ss) fe) := by
  refine ⟨?_, ?_, ?_, ?_, ?_, ?_⟩
  · exact downloadImagesSim_unmapped fs fetchOk imagesPath elems u
  · exact downloadFilesSim_unmapped fs fetchOk nowUnix filesPath urls fu
  · intro hs
    simp [updateURLAttr, hs]
  · intro raw
    rfl
  · intro others hs
    simp [updateDataAttrsJSON, hs]
  · intro hE
    unfold updateSrcsetEntryList
    exact srcsetRebuild_out m (ProvEntry m (parseSrcsetEntries ss))
      (parseSrcsetEntries ss) ([], srcsetPathToEntry m (parseSrcsetEntries ss))
      (fun k v h => srcsetPathToEntry_prov m (parseSrcsetEntries ss) hE k v h)
      (fun fe h => by cases h)

/-- Witness for C10: a group whose download fails leaves its URLs
unmapped; a failing file download stays unmapped; unmapped attributes are
untouched. -/
theorem c10_frame_property_witness :
    SMap.lookup (downloadImagesSim (fun _ => false) (fun _ => false) (gs "imgs")
        [⟨gs "https://s.com/b.jpg", [gs "https://s.com/b.jpg", gs "https://s.com/a.jpg"]⟩]).2
      (gs "https://s.com/a.jpg") = none
      ∧ SMap.lookup (downloadFilesSim (fun _ => false) (fun _ => false) 0
          (gs "files") [gs "https://s.com/r.pdf"]).2 (gs "https://s.com/r.pdf") = none
      ∧ updateURLAttr [(gs "https://s.com/b.jpg", gs "imgs/b.jpg")]
          (some (gs "https://s.com/z.jpg")) = some (gs "https://s.com/z.jpg") := by
  have h := c10_frame_property (fun _ => false) (fun _ => false) 0 (gs "imgs")
    (gs "files") [⟨gs "https://s.com/b.jpg",
      [gs "https://s.com/b.jpg", gs "https://s.com/a.jpg"]⟩]
    [gs "https://s.com/r.pdf"]
    [(gs "https://s.com/b.jpg", gs "imgs/b.jpg")]
    (gs "https://s.com/a.jpg") (gs "https://s.com/z.jpg") (gs "")
    (gs "https://s.com/r.pdf")
  refine ⟨h.1 ?_, h.2.1 ?_, h.2.2.1 ?_⟩
  · intro e he hu
    rw [List.mem_singleton.mp he]
    decide
  · decide
  · decide

/-- **C10 (counterexample).** Rewriting is not byte-for-byte on unmapped
content: a srcset attribute none of whose URLs is mapped is still
re-normalized (entries re-joined with `", "`). -/
theorem c10_counterexample : ¬ claimC10SrcsetUntouched := by
  intro h
  have := h (gs "https://a.com/p 424w,https://b.com/q 848w") []
    (fun e _ u _ => rfl)
  exact absurd this (by decide)

/-- **C1 (amended).** Provided the successful groups only share URL
variants when they share the best URL (in particular when their variant
sets are pairwise disjoint), the produced map sends every variant of a
successful group to that group's single local path; and rewriting with a
hygienic URL→relative-path map replaces every mapped URL at every modelled
position — plain `src`/`href`, `data-attrs` `src`, and srcset entry URL —
with its path, after which no mapped URL remains at any of those
positions.  The rewritten document is exactly the element-wise rewrite of
imgs, anchors and sources. -/
theorem c1_rewrite_replaces_all (fs fetchOk : List Char → Bool)
    (imagesPath : List Char) (elems : List ImageElement) (m : SMap)
    (hm : MapHygiene m) (s ss : List Char)
    (hdisj : ∀ e1 ∈ elems, ∀ e2 ∈ elems,
      (downloadSingleImageSim fs fetchOk imagesPath e1.bestURL).success = true →
      (downloadSingleImageSim fs fetchOk imagesPath e2.bestURL).success = true →
      ∀ u, u ∈ e1.allURLs → u ∈ e2.allURLs → e1.bestURL = e2.bestURL) :
    (∀ e ∈ elems,
      (downloadSingleImageSim fs fetchOk imagesPath e.bestURL).success = true →
      ∀ u ∈ e.allURLs,
        SMap.lookup (downloadImagesSim fs fetchOk imagesPath elems).2 u
          = some (imageLocalPath imagesPath e.bestURL))
      ∧ (∀ p, SMap.lookup m s = some p → updateURLAttr m (some s) = some p)
      ∧ (∀ q, updateURLAttr m (some s) = some q → SMap.lookup m q = none)
      ∧ (∀ p others, SMap.lookup m s = some p →
          updateDataAttrsJSON (.obj (some s) others) m = .obj (some p) others)
      ∧ (∀ d q, (updateDataAttrsJSON d m).srcField = some q →
          SMap.lookup m q = none)
      ∧ (∀ fe ∈ updateSrcsetEntryList ss m, ∀ k, firstField fe = some k →
          SMap.lookup m k = none)
      ∧ ((∀ e ∈ parseSrcsetEntries ss, EntryShape e) →
          ∀ e ∈ parseSrcsetEntries ss, ∀ u rel, firstField e = some u →
            SMap.lookup m u = some rel →
            ∃ fe ∈ updateSrcsetEntryList ss m, firstField fe = some rel)
      ∧ (∀ doc : HTMLDocM, updateHTMLWithLocalPaths doc m
          = ⟨doc.imgs.map (updateImg m), doc.anchors.map (updateAnchor m),
              doc.sources.map (updateSource m)⟩) := by
  have hinv := srcsetPathToEntry_inv m hm (parseSrcsetEntries ss)
  refine ⟨?_, ?_, ?_, ?_, ?_, ?_, ?_, ?_⟩
  · exact downloadImagesSim_consistent fs fetchOk imagesPath elems hdisj
  · intro p hp
    simp [updateURLAttr, hp]
  · intro q hq
    cases hl : SMap.lookup m s with
    | some p =>
      simp only [updateURLAttr, hl, Option.some.injEq] at hq
      rw [← hq]
      exact (hm _ _ hl).2.2.2
    | none =>
      simp only [updateURLAttr, hl, Option.some.injEq] at hq
      rw [← hq]
      exact hl
  · intro p others hp
    simp [updateDataAttrsJSON, hp]
  · intro d q hq
    cases d with
    | unparseable raw => cases hq
    | obj src others =>
      cases src with
      | none => cases hq
      | some u =>
        cases hl : SMap.lookup m u with
        | some p =>
          simp only [updateDataAttrsJSON, DataAttrs.srcField, hl,
            Option.some.injEq] at hq
          rw [← hq]
          exact (hm _ _ hl).2.2.2
        | none =>
          simp only [updateDataAttrsJSON, DataAttrs.srcField, hl,
            Option.some.injEq] at hq
          rw [← hq]
          exact hl
  · intro fe hfe k hk
    have hout : ∀ fe ∈ updateSrcsetEntryList ss m,
        ∃ k0, firstField fe = some k0 ∧ SMap.lookup m k0 = none := by
      unfold updateSrcsetEntryList
      exact srcsetRebuild_out m
        (fun v => ∃ k0, firstField v = some k0 ∧ SMap.lookup m k0 = none)
        (parseSrcsetEntries ss)
        ([], srcsetPathToEntry m (parseSrcsetEntries ss))
        (fun k0 v h => ⟨k0, (hinv k0 v h).1, (hinv k0 v h).2⟩)
        (fun fe h => by cases h)
    obtain ⟨k0, hk0, hnone⟩ := hout fe hfe
    rw [hk0] at hk
    cases hk
    exact hnone
  · intro hE e hin u rel hff hmu
    have hkey : rebuildKey m e
        = some (match SMap.lookup m u with
                | some rel => rel
                | none => u) := by
      obtain ⟨u', d', hsh, hu, hnu, _, _, hd⟩ := hE e hin
      have hff' : firstField e = some u' := by
        rw [hsh]
        unfold firstField
        rw [goFields_entryShape u' d' hu hnu hd]
        rfl
      have huu : u' = u := by
        rw [hff'] at hff
        injection hff
      subst huu
      rw [hsh]
      exact rebuildKey_entryShape m u' d' hu hnu hd
    rw [hmu] at hkey
    have hsome := srcsetPathToEntry_isSome m (parseSrcsetEntries ss) e hin rel hkey
    obtain ⟨v, hv⟩ := Option.isSome_iff_exists.mp hsome
    refine ⟨v, ?_, (hinv rel v hv).1⟩
    unfold updateSrcsetEntryList
    exact srcsetRebuild_emits m (parseSrcsetEntries ss)
      ([], srcsetPathToEntry m (parseSrcsetEntries ss)) rel v hv
      ⟨e, hin, hkey⟩
  · intro doc
    rfl

/-- Counterexample to C1 as stated: with two successful groups that share
a URL variant but have different best URLs, the shared variant cannot map
to both groups' local paths — the loop leaves it mapped to the later
group's path, so the first group's variants do not all resolve to the
first group's single path. -/
theorem c1_counterexample : ¬ claimC1MapConsistent := by
  intro h
  have h1 := h (fun _ => true) (fun _ => true) (gs "imgs")
    [⟨gs "https://s.com/b.jpg",
        [gs "https://s.com/b.jpg", gs "https://s.com/a.jpg"]⟩,
      ⟨gs "https://s.com/c.jpg",
        [gs "https://s.com/c.jpg", gs "https://s.com/a.jpg"]⟩]
    ⟨gs "https://s.com/b.jpg",
      [gs "https://s.com/b.jpg", gs "https://s.com/a.jpg"]⟩
    (by decide) rfl (gs "https://s.com/a.jpg") (by decide)
  exact absurd h1 (by decide)

/-- Witness for the amended C1 on a single successful group and a concrete
hygienic map: the group's variant resolves to its local path, a mapped
plain `src` is replaced by its path, and the mapped srcset entry's URL
reappears as a rewritten entry's path. -/
theorem c1_rewrite_replaces_all_witness :
    SMap.lookup (downloadImagesSim (fun _ => true) (fun _ => true) (gs "imgs")
        [⟨gs "https://s.com/b.jpg", [gs "https://s.com/b.jpg"]⟩]).2
        (gs "https://s.com/b.jpg")
      = some (imageLocalPath (gs "imgs") (gs "https://s.com/b.jpg"))
    ∧ updateURLAttr [(gs "https://s.com/b.jpg", gs "imgs/b.jpg")]
        (some (gs "https://s.com/b.jpg")) = some (gs "imgs/b.jpg")
    ∧ ∃ fe ∈ updateSrcsetEntryList (gs "https://s.com/b.jpg 424w")
        [(gs "https://s.com/b.jpg", gs "imgs/b.jpg")],
        firstField fe = some (gs "imgs/b.jpg") := by
  have hm : MapHygiene [(gs "https://s.com/b.jpg", gs "imgs/b.jpg")] := by
    intro k v h
    simp only [SMap.lookup] at h
    split at h
    · cases h
      exact ⟨by decide, by decide, by decide, by decide⟩
    · cases h
  have h := c1_rewrite_replaces_all (fun _ => true) (fun _ => true) (gs "imgs")
    [⟨gs "https://s.com/b.jpg", [gs "https://s.com/b.jpg"]⟩]
    [(gs "https://s.com/b.jpg", gs "imgs/b.jpg")] hm
    (gs "https://s.com/b.jpg") (gs "https://s.com/b.jpg 424w")
    (by
      intro e1 h1 e2 h2 _ _ u _ _
      rw [List.mem_singleton.mp h1, List.mem_singleton.mp h2])
  refine ⟨?_, ?_, ?_⟩
  · exact h.1 ⟨gs "https://s.com/b.jpg", [gs "https://s.com/b.jpg"]⟩
      (by decide) rfl (gs "https://s.com/b.jpg") (by decide)
  · exact h.2.1 (gs "imgs/b.jpg") (by decide)
  · refine h.2.2.2.2.2.2.1 ?_ (gs "https://s.com/b.jpg 424w") (by decide)
      (gs "https://s.com/b.jpg") (gs "imgs/b.jpg") (by decide) (by decide)
    intro e he
    have hent : parseSrcsetEntries (gs "https://s.com/b.jpg 424w")
        = [gs "https://s.com/b.jpg 424w"] := by decide
    rw [hent] at he
    rcases List.mem_cons.mp he with rfl | he
    · exact ⟨gs "https://s.com/b.jpg", gs "424", by decide, by decide,
        by decide, by decide, by decide, by decide⟩
    · cases he

theorem getAllPostsURLs_fold (f : Option (List Char → Bool))
    (entries : List SitemapEntry) (acc : List (List Char)) :
    entries.foldl
      (fun urls s =>
        if ¬ containsSub s.loc (gs "/p/") then urls
        else
          match f with
          | some p => if ¬ p s.lastmod then urls else urls ++ [s.loc]
          | none => urls ++ [s.loc])
      acc
    = acc ++ (entries.filter (fun s =>
        containsSub s.loc (gs "/p/") &&
          match f with
          | some p => p s.lastmod
          | none => true)).map (fun s => s.loc) := by
  induction entries generalizing acc with
  | nil => simp
  | cons s rest ih =>
    rw [List.foldl_cons, List.filter_cons]
    by_cases hc : containsSub s.loc (gs "/p/")
    · cases f with
      | none =>
        simp only [hc, not_true, if_false, ih]
        simp
      | some p =>
        by_cases hp : p s.lastmod
        · simp only [hc, not_true, if_false, hp, ih]
          simp
        · simp only [hc, not_true, if_false, hp, not_false_iff, if_true, ih]
          simp [hp]
    · have : (containsSub s.loc (gs "/p/") &&
          match f with
          | some p => p s.lastmod
          | none => true) = false := by
        simp [hc]
      simp only [hc, not_false_iff, if_true, ih, this]
      simp

/-- **C9.** `GetAllPostsURLs` fetches `{publicationURL}/sitemap.xml` and
returns exactly the `<loc>` values of `<url>` entries containing `/p/`
that pass the optional `<lastmod>` date filter, in document order. -/
theorem c9_sitemap_enumeration (entries : List SitemapEntry)
    (f : Option (List Char → Bool)) :
    getAllPostsURLs entries f
        = (entries.filter (fun s =>
            containsSub s.loc (gs "/p/") &&
              match f with
              | some p => p s.lastmod
              | none => true)).map (fun s => s.loc)
      ∧ sitemapURL (gs "https://pub.example.com")
          = gs "https://pub.example.com/sitemap.xml"
      ∧ sitemapURL (gs "https://pub.example.com/blog")
          = gs "https://pub.example.com/blog/sitemap.xml" := by
  refine ⟨?_, by decide, by decide⟩
  unfold getAllPostsURLs
  rw [getAllPostsURLs_fold]
  simp

/-- A script that fails any of the marker/delimiter checks is skipped by
the scan. -/
theorem scriptExtract_eq_none (s : List Char)
    (h : ¬ scriptMarkers s
        ∨ indexOfFrom s (gs "JSON.parse(\"") = none
        ∨ lastIndexOf s (gs "\")") = none
        ∨ (∃ i e, indexOfFrom s (gs "JSON.parse(\"") = some i
            ∧ lastIndexOf s (gs "\")") = some e ∧ i + 12 ≥ e)) :
    scriptExtract s = none := by
  unfold scriptExtract
  rcases h with h | h | h | ⟨i, e, hi, he, hie⟩
  · simp [h]
  · by_cases hm : scriptMarkers s <;> simp [hm, h]
  · by_cases hm : scriptMarkers s <;> simp [hm, h]
    cases hidx : indexOfFrom s (gs "JSON.parse(\"") <;> simp [h]
  · by_cases hm : scriptMarkers s <;> simp [hm, hi, he]
    have hlen : (gs "JSON.parse(\"").length = 12 := by decide
    omega

/-- **C8.** When no script carries the embedded-JSON markers, or every
marker-carrying script lacks the string-literal delimiters or has the
start at or after the end, `ExtractPost` returns an explicit extraction
error together with the zero `Post` value. -/
theorem c8_extract_error (scripts : List (List Char))
    (parsePost : List Char → Except (List Char) Post)
    (h : ∀ s ∈ scripts,
        ¬ scriptMarkers s
          ∨ indexOfFrom s (gs "JSON.parse(\"") = none
          ∨ lastIndexOf s (gs "\")") = none
          ∨ (∃ i e, indexOfFrom s (gs "JSON.parse(\"") = some i
              ∧ lastIndexOf s (gs "\")") = some e ∧ i + 12 ≥ e)) :
    extractPostSim scripts parsePost
      = (zeroPost,
          some (gs "failed to extract post data: failed to extract JSON string")) := by
  have hnone : scripts.findSome? scriptExtract = none := by
    rw [List.findSome?_eq_none_iff]
    intro s hs
    exact scriptExtract_eq_none s (h s hs)
  unfold extractPostSim extractJSONString
  rw [hnone]
  rfl

/-- Witness for C8: a page with an unrelated script, a marker script with
no quoted parse argument, and a marker script whose delimiters are
inverted. -/
theorem c8_extract_error_witness :
    extractPostSim
      [gs "var x = 1",
        gs "window._preloads = JSON.parse(data)",
        gs "\") window._preloads = JSON.parse(\""]
      (fun _ => .ok zeroPost)
      = (zeroPost,
          some (gs "failed to extract post data: failed to extract JSON string")) := by
  apply c8_extract_error
  intro s hs
  simp only [List.mem_cons, List.mem_singleton] at hs
  rcases hs with rfl | rfl | rfl | h
  · left
    decide
  · right; left
    decide
  · right; right; right
    refine ⟨22, 0, by decide, by decide, by omega⟩
  · cases h

/-- **C5 (counterexample).** The claim, read at its own example input
(`Retry-After: 2`, one retry), is false: with the default policy the delay
before the second attempt is the backoff interval `500ms · u ≤ 750ms`, not
approximately 2 seconds; at the admissible draw `u = 1` it is exactly
500ms. -/
theorem c5_counterexample : ¬ claimC5AtTwoSeconds := by
  intro h
  obtain ⟨d, hd, hlo, _⟩ := h 1 (by norm_num) (by norm_num)
  have hdel : (fetchURLSim [.tooMany 2, .ok []]
      (fun i => some (defaultBackoffNs i 1))).delays = [defaultBackoffNs 0 1] :=
    fetchURLSim_tooMany_delays 2 1
  rw [hdel] at hd
  have hval : defaultBackoffNs 0 1 = 500000000 := by
    norm_num [defaultBackoffNs]
  have : d = 500000000 := by
    have := List.cons.injEq (defaultBackoffNs 0 1) [] d [] ▸ hd
    rw [hval] at hd
    exact (List.cons.injEq _ _ _ _ ▸ hd).1.symm
  rw [this] at hlo
  norm_num at hlo

end Sbstck
